import Mathlib

/-!
# The external scanner of tree-sitter-tsz (`src/tree-sitter-tsz/src/scanner.c`)

A shallow embedding of the scanner: the lexer cursor is an explicit state, every
scanner routine is a function from a lexer state to its return value and the lexer
state it leaves behind.  Characters are Unicode code points, held as natural numbers
(`lexer->lookahead` is an `int32_t` that is never negative).
-/

namespace Tsz

/-! ## `enum TokenType` -/

/-- Ordinal 0 of `enum TokenType`. -/
abbrev TEMPLATE_CHARS : Nat := 0
/-- Ordinal 1 of `enum TokenType`. -/
abbrev TERNARY_QMARK : Nat := 1
/-- Ordinal 2 of `enum TokenType`. -/
abbrev HTML_COMMENT : Nat := 2
/-- Ordinal 3 of `enum TokenType`. -/
abbrev LOGICAL_OR : Nat := 3
/-- Ordinal 4 of `enum TokenType`. -/
abbrev ESCAPE_SEQUENCE : Nat := 4
/-- Ordinal 5 of `enum TokenType`. -/
abbrev REGEX_PATTERN : Nat := 5

/-! ## The C library: `<wctype.h>` -/

/-- The wide-character classification of the C library that the scanner calls and does
not define.  `iswspace` depends on the locale of the process, so it is a parameter of
the embedding; the two laws are what holds in every locale: the terminating NUL is not
white space, and no printing ASCII character (`!` to `~`) is white space. -/
structure WCType where
  iswspace : Nat → Bool
  iswspace_nul : iswspace 0 = false
  iswspace_graph : ∀ c, 33 ≤ c → c ≤ 126 → iswspace c = false

/-- The "C" locale: space, `\t`, `\n`, `\v`, `\f`, `\r`. -/
def cLocale : WCType where
  iswspace c := c == 32 || (decide (9 ≤ c) && decide (c ≤ 13))
  iswspace_nul := by decide
  iswspace_graph := by
    intro c h1 h2
    have h3 : ¬ c = 32 := by omega
    have h4 : ¬ c ≤ 13 := by omega
    simp [h3, h4]

/-- `iswdigit` of the C library: the decimal digits `0` to `9`, in every locale. -/
def iswdigit (c : Nat) : Bool := decide (48 ≤ c) && decide (c ≤ 57)

/-! ## The lexer cursor: `TSLexer` -/

/-- One call that a scanner routine makes on the lexer, as recorded in `TSLexer.trace`. -/
inductive LexerCall where
  | advance (skip : Bool)
  | mark_end
  | result_symbol (k : Nat)
  deriving DecidableEq, Repr

/-- Modelled from the spec: the Lexer Cursor of sections 2 and 3 (`TSLexer`, declared in
`tree_sitter/parser.h`, which is not among the sources).  It exposes the lookahead
character, `advance` (consume into the token), `skip` (consume outside the token) and
`mark_end` (commit the tentative token boundary), and an output slot for the token kind.

* `rest` is the input that has not been consumed; the lookahead is its first character;
* `pos` is the offset of the cursor in the input;
* `token_start` is the offset at which the token begins (moved by every `skip`);
* `token_end` is the offset committed by the last `mark_end`, if there was one;
* `result_symbol` is the output slot for the token kind;
* `trace` lists the calls made on the lexer, the most recent first. -/
structure TSLexer where
  rest : List Nat
  pos : Nat
  token_start : Nat
  token_end : Option Nat
  result_symbol : Nat
  trace : List LexerCall
  deriving DecidableEq, Repr

namespace TSLexer

/-- The state in which the host hands the lexer to the scanner: the token starts at the
cursor, no end is marked. -/
def start (off : Nat) (input : List Nat) : TSLexer :=
  { rest := input, pos := off, token_start := off, token_end := none,
    result_symbol := 0, trace := [] }

/-- Field `lexer->lookahead`: the next character, 0 at end-of-input. -/
def lookahead (lx : TSLexer) : Nat := lx.rest.headD 0

/-- Call `lexer->advance(lexer, skip)`: consume the lookahead character; with `skip` the
token starts after it.  At end-of-input the cursor does not move. -/
def advanceBy (lx : TSLexer) (skip : Bool) : TSLexer :=
  match lx.rest with
  | [] => { lx with trace := LexerCall.advance skip :: lx.trace }
  | _ :: t =>
    { lx with
      rest := t
      pos := lx.pos + 1
      token_start := if skip then lx.pos + 1 else lx.token_start
      trace := LexerCall.advance skip :: lx.trace }

/-- Source `static inline void advance(TSLexer *lexer)`. -/
def advance (lx : TSLexer) : TSLexer := lx.advanceBy false

/-- Source `static inline void skip(TSLexer *lexer)`. -/
def skip (lx : TSLexer) : TSLexer := lx.advanceBy true

/-- Call `lexer->mark_end(lexer)`: commit the cursor as the end of the token. -/
def mark_end (lx : TSLexer) : TSLexer :=
  { lx with token_end := some lx.pos, trace := LexerCall.mark_end :: lx.trace }

/-- Assignment `lexer->result_symbol = k`. -/
def set_result_symbol (lx : TSLexer) (k : Nat) : TSLexer :=
  { lx with result_symbol := k, trace := LexerCall.result_symbol k :: lx.trace }

/-- The lexer after `n` calls of `skip` in a row. -/
def skipN (lx : TSLexer) : Nat → TSLexer
  | 0 => lx
  | n + 1 => lx.skip.skipN n

/-- Loop `while (p(lexer->lookahead)) { lexer->advance(lexer, skip); }`.  It ends
because `p` is false at the NUL that is read at end-of-input. -/
def consume_while (p : Nat → Bool) (hp : p 0 = false) (skip : Bool) (lx : TSLexer) :
    TSLexer :=
  if h : p lx.lookahead = true then
    consume_while p hp skip (lx.advanceBy skip)
  else lx
termination_by lx.rest.length
decreasing_by
  cases hr : lx.rest with
  | nil => simp [lookahead, hr, hp] at h
  | cons a t => simp [advanceBy, hr]

end TSLexer

/-! ## The scanner routines -/

/-- Loop of `scan_template_chars`, from the `mark_end` at the top of an iteration. -/
def scan_template_chars_loop (has_content : Bool) (lx : TSLexer) : Bool × TSLexer :=
  if lx.mark_end.lookahead = 96 then (has_content, lx.mark_end)
  else if h0 : lx.mark_end.lookahead = 0 then (false, lx.mark_end)
  else if lx.mark_end.lookahead = 36 then
    if lx.mark_end.advance.lookahead = 123 then (has_content, lx.mark_end.advance)
    else scan_template_chars_loop true lx.mark_end.advance
  else if lx.mark_end.lookahead = 92 then (has_content, lx.mark_end)
  else scan_template_chars_loop true lx.mark_end.advance
termination_by lx.rest.length
decreasing_by
  all_goals
    cases hr : lx.rest with
    | nil => simp [TSLexer.lookahead, TSLexer.mark_end, hr] at h0
    | cons a t => simp [TSLexer.advance, TSLexer.advanceBy, TSLexer.mark_end, hr]

/-- Source `scan_template_chars`. The characters are 96 backtick, 0 NUL, 36 dollar,
123 opening brace, 92 backslash. -/
def scan_template_chars (lx : TSLexer) : Bool × TSLexer :=
  scan_template_chars_loop false (lx.set_result_symbol TEMPLATE_CHARS)

/-- Source `scan_ternary_qmark`. The characters are 63 question mark, 46 dot. -/
def scan_ternary_qmark (W : WCType) (lx : TSLexer) : Bool × TSLexer :=
  let lx1 := lx.consume_while W.iswspace W.iswspace_nul true
  if lx1.lookahead = 63 then
    let lx2 := lx1.advance
    if lx2.lookahead = 63 then (false, lx2)
    else
      let lx3 := lx2.mark_end.set_result_symbol TERNARY_QMARK
      if lx3.lookahead = 46 then
        let lx4 := lx3.advance
        if iswdigit lx4.lookahead then (true, lx4) else (false, lx4)
      else (true, lx3)
  else (false, lx1)

/-- The literal `comment_start` of `scan_html_comment`: the four characters of the
opener, 60 33 45 45. -/
def comment_start : List Nat := [60, 33, 45, 45]

/-- The literal `comment_end` of `scan_html_comment`: the three characters of the
closer, 45 45 62. -/
def comment_end : List Nat := [45, 45, 62]

/-- Loops `for (i = 0; i < n; i++) { if (lookahead != lit[i]) return false; advance; }`
of `scan_html_comment`: `false` with the lexer at the mismatch, or `true` after the
literal. -/
def match_literal : List Nat → TSLexer → Bool × TSLexer
  | [], lx => (true, lx)
  | c :: cs, lx => if lx.lookahead ≠ c then (false, lx) else match_literal cs lx.advance

/-- Condition of the first loop of `scan_html_comment`. -/
def html_space (W : WCType) (c : Nat) : Bool := W.iswspace c || c == 0x2028 || c == 0x2029

/-- Condition of the last loop of `scan_html_comment`: not NUL and not a line
terminator. -/
def not_line_end (c : Nat) : Bool := c != 0 && c != 10 && c != 0x2028 && c != 0x2029

/-- Source `scan_html_comment`. -/
def scan_html_comment (W : WCType) (lx : TSLexer) : Bool × TSLexer :=
  let lx1 := lx.consume_while (html_space W) (by simp [html_space, W.iswspace_nul]) true
  let body (r : Bool × TSLexer) : Bool × TSLexer :=
    if r.1 then
      let lx2 := r.2.consume_while not_line_end (by decide) false
      (true, (lx2.set_result_symbol HTML_COMMENT).mark_end)
    else (false, r.2)
  if lx1.lookahead = 60 then body (match_literal comment_start lx1)
  else if lx1.lookahead = 45 then body (match_literal comment_end lx1)
  else (false, lx1)

/-- Source `tree_sitter_tsz_external_scanner_scan`; `valid_symbols` is the array of
booleans indexed by the ordinals of `enum TokenType`. -/
def tree_sitter_tsz_external_scanner_scan (W : WCType) (_payload : Nat) (lx : TSLexer)
    (valid_symbols : Nat → Bool) : Bool × TSLexer :=
  if valid_symbols TEMPLATE_CHARS then scan_template_chars lx
  else if valid_symbols TERNARY_QMARK then scan_ternary_qmark W lx
  else if valid_symbols HTML_COMMENT && !valid_symbols LOGICAL_OR &&
      !valid_symbols ESCAPE_SEQUENCE && !valid_symbols REGEX_PATTERN then
    scan_html_comment W lx
  else (false, lx)

/-! ## The white-space and comment routine -/

/-- Source `typedef enum { REJECT, NO_NEWLINE, ACCEPT } WhitespaceResult`. -/
inductive WhitespaceResult where
  | REJECT
  | NO_NEWLINE
  | ACCEPT
  deriving DecidableEq, Repr

/-- Test `lookahead == '\n' || lookahead == 0x2028 || lookahead == 0x2029` of the
block-comment loop. -/
def is_line_terminator (c : Nat) : Bool := c == 10 || c == 0x2028 || c == 0x2029

/-- Loop `while (lexer->lookahead != 0) { ... }` of `scan_whitespace_and_comments`, which
reads the body of a block comment. The first component is `some r` when the routine
returns `r` from inside the loop, and `none` when the loop is left, by `break` or because
the lookahead is 0. The booleans are `*scanned_comment` and `saw_block_newline`. The
characters are 42 star, 47 slash. -/
def block_comment_loop (consume : Bool) (scanned_comment saw_block_newline : Bool)
    (lx : TSLexer) : Option WhitespaceResult × Bool × Bool × TSLexer :=
  if h0 : lx.lookahead = 0 then (none, scanned_comment, saw_block_newline, lx)
  else if lx.lookahead = 42 then
    if lx.skip.lookahead = 47 then
      if lx.skip.skip.lookahead ≠ 47 ∧ consume = false then
        (some (if saw_block_newline then WhitespaceResult.ACCEPT
          else WhitespaceResult.NO_NEWLINE), true, saw_block_newline, lx.skip.skip)
      else (none, true, saw_block_newline, lx.skip.skip)
    else block_comment_loop consume scanned_comment saw_block_newline lx.skip
  else if is_line_terminator lx.lookahead then
    block_comment_loop consume scanned_comment true lx.skip
  else block_comment_loop consume scanned_comment saw_block_newline lx.skip
termination_by lx.rest.length
decreasing_by
  all_goals
    cases hr : lx.rest with
    | nil => simp [TSLexer.lookahead, hr] at h0
    | cons a t => simp [TSLexer.skip, TSLexer.advanceBy, hr]

/-- One turn of the loop `for (;;) { ... }` of `scan_whitespace_and_comments`: the white
space, then a line comment, a block comment, or the end of the scan. The result is
`Sum.inl` of what the routine returns (with `*scanned_comment` and the lexer), or
`Sum.inr` of `*scanned_comment`, `saw_block_newline` and the lexer with which the loop
goes on. -/
def scan_whitespace_and_comments_turn (W : WCType) (consume : Bool)
    (scanned_comment saw_block_newline : Bool) (lx : TSLexer) :
    (WhitespaceResult × Bool × TSLexer) ⊕ (Bool × Bool × TSLexer) :=
  let lx1 := lx.consume_while W.iswspace W.iswspace_nul true
  if lx1.lookahead = 47 then
    let lx2 := lx1.skip
    if lx2.lookahead = 47 then
      let lx3 := lx2.skip.consume_while not_line_end (by decide) true
      Sum.inr (true, saw_block_newline, lx3)
    else if lx2.lookahead = 42 then
      match block_comment_loop consume scanned_comment saw_block_newline lx2.skip with
      | (some r, sc, _, lx3) => Sum.inl (r, sc, lx3)
      | (none, sc, sbn, lx3) => Sum.inr (sc, sbn, lx3)
    else Sum.inl (WhitespaceResult.REJECT, scanned_comment, lx2)
  else Sum.inl (WhitespaceResult.ACCEPT, scanned_comment, lx1)

/-- Loop `for (;;) { ... }` of `scan_whitespace_and_comments`: it takes turns until one
of them returns. Every turn that does not return has consumed input, which is why the
loop ends. -/
def scan_whitespace_and_comments_loop (W : WCType) (consume : Bool)
    (scanned_comment saw_block_newline : Bool) (lx : TSLexer) :
    WhitespaceResult × Bool × TSLexer :=
  match h : scan_whitespace_and_comments_turn W consume scanned_comment saw_block_newline
      lx with
  | Sum.inl r => r
  | Sum.inr (sc, sbn, lx1) => scan_whitespace_and_comments_loop W consume sc sbn lx1
termination_by lx.rest.length
decreasing_by
  -- a loop of `skip` gives no input back
  have F1 : ∀ (p : Nat → Bool) (hp : p 0 = false) (n : Nat) (l : TSLexer),
      l.rest.length ≤ n → (l.consume_while p hp true).rest.length ≤ l.rest.length := by
    intro p hp n
    induction n with
    | zero =>
      intro l hl
      have hnil : l.rest = [] := List.length_eq_zero.mp (Nat.le_zero.mp hl)
      rw [TSLexer.consume_while, dif_neg (by simp [TSLexer.lookahead, hnil, hp])]
    | succ n ih =>
      intro l hl
      rw [TSLexer.consume_while]
      split
      · rename_i hp1
        cases hr : l.rest with
        | nil => simp [TSLexer.lookahead, hr, hp] at hp1
        | cons a t =>
          have h1 : (l.advanceBy true).rest = t := by simp [TSLexer.advanceBy, hr]
          have h2 := ih (l.advanceBy true) (by rw [h1]; rw [hr] at hl; simpa using hl)
          rw [h1] at h2
          exact Nat.le_trans h2 (by simp)
      · exact Nat.le_refl _
  -- neither does the loop of the block comment
  have F3 : ∀ (c sc sbn : Bool) (n : Nat) (l : TSLexer), l.rest.length ≤ n →
      (block_comment_loop c sc sbn l).2.2.2.rest.length ≤ l.rest.length := by
    intro c sc sbn n
    induction n generalizing sbn with
    | zero =>
      intro l hl
      have hnil : l.rest = [] := List.length_eq_zero.mp (Nat.le_zero.mp hl)
      rw [block_comment_loop, dif_pos (by simp [TSLexer.lookahead, hnil])]
    | succ n ih =>
      intro l hl
      cases hr : l.rest with
      | nil => rw [block_comment_loop, dif_pos (by simp [TSLexer.lookahead, hr])]; simp [hr]
      | cons a t =>
        have h1 : l.skip.rest = t := by simp [TSLexer.skip, TSLexer.advanceBy, hr]
        have h2 : ∀ b, (block_comment_loop c sc b l.skip).2.2.2.rest.length
            ≤ (a :: t).length := by
          intro b
          have := ih b l.skip (by rw [h1]; rw [hr] at hl; simpa using hl)
          rw [h1] at this
          exact Nat.le_trans this (by simp)
        have h3 : l.skip.skip.rest.length ≤ (a :: t).length := by
          cases t with
          | nil => simp [TSLexer.skip, TSLexer.advanceBy, hr]
          | cons b t => simp [TSLexer.skip, TSLexer.advanceBy, hr]; omega
        rw [block_comment_loop]
        split
        · simp [hr]
        · split
          · split
            · split
              · exact h3
              · exact h3
            · exact h2 _
          · split
            · exact h2 _
            · exact h2 _
  have F2 : ∀ l : TSLexer, l.lookahead = 47 → l.skip.rest.length < l.rest.length := by
    intro l hl
    cases hr : l.rest with
    | nil => simp [TSLexer.lookahead, hr] at hl
    | cons a t => simp [TSLexer.skip, TSLexer.advanceBy, hr]
  have F4 : ∀ l : TSLexer, l.skip.rest.length ≤ l.rest.length := by
    intro l
    cases hr : l.rest with
    | nil => simp [TSLexer.skip, TSLexer.advanceBy, hr]
    | cons a t => simp [TSLexer.skip, TSLexer.advanceBy, hr]
  have G1 := F1 W.iswspace W.iswspace_nul lx.rest.length lx (Nat.le_refl _)
  simp only [scan_whitespace_and_comments_turn] at h
  split at h
  · rename_i h47
    have G2 := F2 _ h47
    split at h
    · simp only [Sum.inr.injEq, Prod.mk.injEq] at h
      obtain ⟨_, _, h⟩ := h
      rw [← h]
      have G3 := F1 not_line_end (by decide) _
        (lx.consume_while W.iswspace W.iswspace_nul true).skip.skip (Nat.le_refl _)
      have G4 := F4 (lx.consume_while W.iswspace W.iswspace_nul true).skip
      omega
    · split at h
      · have G3 := F3 consume scanned_comment saw_block_newline _
          (lx.consume_while W.iswspace W.iswspace_nul true).skip.skip (Nat.le_refl _)
        have G4 := F4 (lx.consume_while W.iswspace W.iswspace_nul true).skip
        split at h
        · simp at h
        · rename_i heq
          simp only [Sum.inr.injEq, Prod.mk.injEq] at h
          obtain ⟨_, _, h⟩ := h
          rw [heq] at G3
          simp only at G3
          rw [← h]
          omega
      · simp at h
  · simp at h

/-- Source `scan_whitespace_and_comments`; the second component of the result is the
value of `*scanned_comment` after the call. -/
def scan_whitespace_and_comments (W : WCType) (lx : TSLexer) (scanned_comment : Bool)
    (consume : Bool) : WhitespaceResult × Bool × TSLexer :=
  scan_whitespace_and_comments_loop W consume scanned_comment false lx


/-- Texts made of white-space characters, line comments and block comments whose
bodies hold no line terminator: what may stand before the cursor when the routine
answers `NO_NEWLINE`. -/
inductive BlockNewlineFree (W : WCType) : List Nat → Prop where
  | nil : BlockNewlineFree W []
  | space (c : Nat) (t : List Nat) :
      W.iswspace c = true → BlockNewlineFree W t → BlockNewlineFree W (c :: t)
  | line (body t : List Nat) :
      (∀ c ∈ body, not_line_end c = true) → BlockNewlineFree W t →
      BlockNewlineFree W (47 :: 47 :: (body ++ t))
  | block (body t : List Nat) :
      (∀ c ∈ body, is_line_terminator c = false) → BlockNewlineFree W t →
      BlockNewlineFree W (47 :: 42 :: (body ++ 42 :: 47 :: t))

/-- Inputs made of white-space characters and line comments, each comment running up to
the next line terminator or the end of the input, followed by the end of the input or by
a character that is neither white space nor a slash. The boolean tells whether there is
a line comment. -/
inductive LineCommentGap (W : WCType) : List Nat → Bool → Prop where
  | done (r : List Nat) :
      (∀ c ∈ r.head?, W.iswspace c = false ∧ c ≠ 47) → LineCommentGap W r false
  | space (c : Nat) (t : List Nat) (b : Bool) :
      W.iswspace c = true → LineCommentGap W t b → LineCommentGap W (c :: t) b
  | line (body t : List Nat) (b : Bool) :
      (∀ c ∈ body, is_line_terminator c = false) →
      (∀ c ∈ t.head?, is_line_terminator c = true) →
      LineCommentGap W t b → LineCommentGap W (47 :: 47 :: (body ++ t)) true

/-! ## The life cycle of the scanner -/

/-- Source `tree_sitter_tsz_external_scanner_serialize`: the body is `return 0;`. The
result is the returned length and the buffer after the call. -/
def tree_sitter_tsz_external_scanner_serialize (_payload : Nat) (buffer : List Nat) :
    Nat × List Nat := (0, buffer)

/-- Source `tree_sitter_tsz_external_scanner_deserialize`: the body is empty. The result
is the scanner state `p` after the call. -/
def tree_sitter_tsz_external_scanner_deserialize (p : Nat) (_b : List Nat) (_n : Nat) :
    Nat := p

/-! ## Lemmas on the lexer loops -/

namespace TSLexer

theorem consume_while_stop (p : Nat → Bool) (hp : p 0 = false) (s : Bool) (lx : TSLexer)
    (h : p lx.lookahead = false) : lx.consume_while p hp s = lx := by
  rw [consume_while]
  simp [h]

theorem consume_while_step (p : Nat → Bool) (hp : p 0 = false) (s : Bool) (lx : TSLexer)
    (h : p lx.lookahead = true) :
    lx.consume_while p hp s = (lx.advanceBy s).consume_while p hp s := by
  rw [consume_while]
  simp [h]

/-- Closed form of the loop on an input that starts with a run `w` of characters that
satisfy `p`, followed by a character that does not (or by the end of the input). -/
theorem consume_while_run (p : Nat → Bool) (hp : p 0 = false) (s : Bool) (w r : List Nat)
    (hw : ∀ c ∈ w, p c = true) (hr : p (r.headD 0) = false) (lx : TSLexer)
    (hrest : lx.rest = w ++ r) :
    lx.consume_while p hp s =
      { lx with
        rest := r
        pos := lx.pos + w.length
        token_start := if s = true ∧ w ≠ [] then lx.pos + w.length else lx.token_start
        trace := List.replicate w.length (LexerCall.advance s) ++ lx.trace } := by
  induction w generalizing lx with
  | nil =>
    have h : p lx.lookahead = false := by simpa [lookahead, hrest] using hr
    rw [consume_while_stop p hp s lx h]
    cases lx
    simp_all
  | cons a w ih =>
    have h : p lx.lookahead = true := by simpa [lookahead, hrest] using hw a (by simp)
    rw [consume_while_step p hp s lx h]
    have hrest2 : (lx.advanceBy s).rest = w ++ r := by simp [advanceBy, hrest]
    rw [ih (fun c hc => hw c (by simp [hc])) _ hrest2]
    cases lx
    simp at hrest
    subst hrest
    cases s <;> cases w <;>
      simp [advanceBy, List.replicate_succ', Nat.add_assoc, Nat.add_comm 1]

/-- The loop with `skip`. -/
theorem skip_while_run (p : Nat → Bool) (hp : p 0 = false) (w r : List Nat)
    (hw : ∀ c ∈ w, p c = true) (hr : p (r.headD 0) = false) (lx : TSLexer)
    (hrest : lx.rest = w ++ r) :
    lx.consume_while p hp true =
      { lx with
        rest := r
        pos := lx.pos + w.length
        token_start := if w ≠ [] then lx.pos + w.length else lx.token_start
        trace := List.replicate w.length (LexerCall.advance true) ++ lx.trace } := by
  rw [consume_while_run p hp true w r hw hr lx hrest]
  simp

/-- The loop with `advance`. -/
theorem advance_while_run (p : Nat → Bool) (hp : p 0 = false) (w r : List Nat)
    (hw : ∀ c ∈ w, p c = true) (hr : p (r.headD 0) = false) (lx : TSLexer)
    (hrest : lx.rest = w ++ r) :
    lx.consume_while p hp false =
      { lx with
        rest := r
        pos := lx.pos + w.length
        trace := List.replicate w.length (LexerCall.advance false) ++ lx.trace } := by
  rw [consume_while_run p hp false w r hw hr lx hrest]
  simp

end TSLexer

/-! ## Lemmas on `scan_ternary_qmark` -/

/-- After the white space `w`: a question mark and a dot. The call returns whether the
character after the dot is a digit; the end was marked between the two. -/
theorem scan_ternary_qmark_dot (W : WCType) (w r : List Nat) (lx : TSLexer)
    (hw : ∀ c ∈ w, W.iswspace c = true) (hrest : lx.rest = w ++ 63 :: 46 :: r) :
    scan_ternary_qmark W lx =
      (iswdigit (r.headD 0),
        { rest := r
          pos := lx.pos + w.length + 2
          token_start := if w ≠ [] then lx.pos + w.length else lx.token_start
          token_end := some (lx.pos + w.length + 1)
          result_symbol := TERNARY_QMARK
          trace := [LexerCall.advance false, LexerCall.result_symbol TERNARY_QMARK,
            LexerCall.mark_end, LexerCall.advance false] ++
            List.replicate w.length (LexerCall.advance true) ++ lx.trace }) := by
  have h1 := TSLexer.consume_while_run W.iswspace W.iswspace_nul true w (63 :: 46 :: r) hw
    (by simpa using W.iswspace_graph 63 (by omega) (by omega)) lx hrest
  simp only [scan_ternary_qmark, h1]
  cases hd : iswdigit (r.headD 0) <;>
    simp [TSLexer.lookahead, TSLexer.advance, TSLexer.advanceBy, TSLexer.mark_end,
      TSLexer.set_result_symbol] <;> simpa using hd

/-- After the white space `w`: a question mark, then neither a question mark nor a dot. -/
theorem scan_ternary_qmark_single (W : WCType) (w r : List Nat) (lx : TSLexer)
    (hw : ∀ c ∈ w, W.iswspace c = true) (hrest : lx.rest = w ++ 63 :: r)
    (hc : ∀ c ∈ r.head?, c ≠ 63 ∧ c ≠ 46) :
    scan_ternary_qmark W lx =
      (true,
        { rest := r
          pos := lx.pos + w.length + 1
          token_start := if w ≠ [] then lx.pos + w.length else lx.token_start
          token_end := some (lx.pos + w.length + 1)
          result_symbol := TERNARY_QMARK
          trace := [LexerCall.result_symbol TERNARY_QMARK, LexerCall.mark_end,
            LexerCall.advance false] ++
            List.replicate w.length (LexerCall.advance true) ++ lx.trace }) := by
  have h1 := TSLexer.consume_while_run W.iswspace W.iswspace_nul true w (63 :: r) hw
    (by simpa using W.iswspace_graph 63 (by omega) (by omega)) lx hrest
  simp only [scan_ternary_qmark, h1]
  cases r with
  | nil =>
    simp [TSLexer.lookahead, TSLexer.advance, TSLexer.advanceBy, TSLexer.mark_end,
      TSLexer.set_result_symbol]
  | cons c r =>
    have h2 := hc c (by simp)
    simp [TSLexer.lookahead, TSLexer.advance, TSLexer.advanceBy, TSLexer.mark_end,
      TSLexer.set_result_symbol, h2.1, h2.2]

/-- After the white space `w`: two question marks. -/
theorem scan_ternary_qmark_double (W : WCType) (w r : List Nat) (lx : TSLexer)
    (hw : ∀ c ∈ w, W.iswspace c = true) (hrest : lx.rest = w ++ 63 :: 63 :: r) :
    scan_ternary_qmark W lx =
      (false,
        { lx with
          rest := 63 :: r
          pos := lx.pos + w.length + 1
          token_start := if w ≠ [] then lx.pos + w.length else lx.token_start
          trace := LexerCall.advance false ::
            (List.replicate w.length (LexerCall.advance true) ++ lx.trace) }) := by
  have h1 := TSLexer.consume_while_run W.iswspace W.iswspace_nul true w (63 :: 63 :: r) hw
    (by simpa using W.iswspace_graph 63 (by omega) (by omega)) lx hrest
  simp only [scan_ternary_qmark, h1]
  simp [TSLexer.lookahead, TSLexer.advance, TSLexer.advanceBy]

/-- After the white space `w`: not a question mark (or the end of the input). -/
theorem scan_ternary_qmark_other (W : WCType) (w r : List Nat) (lx : TSLexer)
    (hw : ∀ c ∈ w, W.iswspace c = true) (hrest : lx.rest = w ++ r)
    (hc : ∀ c ∈ r.head?, W.iswspace c = false ∧ c ≠ 63) :
    scan_ternary_qmark W lx =
      (false,
        { lx with
          rest := r
          pos := lx.pos + w.length
          token_start := if w ≠ [] then lx.pos + w.length else lx.token_start
          trace := List.replicate w.length (LexerCall.advance true) ++ lx.trace }) := by
  have hr : W.iswspace (r.headD 0) = false := by
    cases r with
    | nil => simpa using W.iswspace_nul
    | cons c r => simpa using (hc c (by simp)).1
  have h1 := TSLexer.consume_while_run W.iswspace W.iswspace_nul true w r hw hr lx hrest
  simp only [scan_ternary_qmark, h1]
  cases r with
  | nil => simp [TSLexer.lookahead]
  | cons c r =>
    have h2 := hc c (by simp)
    simp [TSLexer.lookahead, h2.2]

/-! ## Lemmas on `scan_template_chars` -/

theorem scan_template_chars_loop_nil (hc : Bool) (lx : TSLexer) (hrest : lx.rest = []) :
    scan_template_chars_loop hc lx = (false, lx.mark_end) := by
  rw [scan_template_chars_loop]
  simp [TSLexer.lookahead, TSLexer.mark_end, hrest]

theorem scan_template_chars_loop_cons (hc : Bool) (lx : TSLexer) (x : Nat) (t : List Nat)
    (hrest : lx.rest = x :: t) :
    scan_template_chars_loop hc lx =
      if x = 96 then (hc, lx.mark_end)
      else if x = 0 then (false, lx.mark_end)
      else if x = 36 then
        if t.headD 0 = 123 then (hc, lx.mark_end.advance)
        else scan_template_chars_loop true lx.mark_end.advance
      else if x = 92 then (hc, lx.mark_end)
      else scan_template_chars_loop true lx.mark_end.advance := by
  conv_lhs => rw [scan_template_chars_loop]
  simp [TSLexer.lookahead, TSLexer.mark_end, TSLexer.advance, TSLexer.advanceBy, hrest]

/-- The loop runs over a stretch `c` of ordinary content. -/
theorem scan_template_chars_loop_content (c t : List Nat)
    (hc : ∀ x ∈ c, x ≠ 96 ∧ x ≠ 92 ∧ x ≠ 0) (hd : ¬ [36, 123] <:+: c)
    (hl : c.getLast? = some 36 → t.head? ≠ some 123) (b : Bool) (lx : TSLexer)
    (hrest : lx.rest = c ++ t) :
    ∃ lx1 : TSLexer,
      scan_template_chars_loop b lx = scan_template_chars_loop (b || !c.isEmpty) lx1 ∧
      lx1.rest = t ∧ lx1.pos = lx.pos + c.length ∧ lx1.token_start = lx.token_start ∧
      lx1.result_symbol = lx.result_symbol := by
  induction c generalizing b lx with
  | nil => exact ⟨lx, by simp, by simpa using hrest, by simp, rfl, rfl⟩
  | cons x c ih =>
    have hx := hc x (by simp)
    have hrest1 : lx.rest = x :: (c ++ t) := by simpa using hrest
    have hnext : x = 36 → (c ++ t).headD 0 ≠ 123 := by
      intro hx36
      subst hx36
      cases c with
      | nil =>
        have := hl (by simp)
        cases t with
        | nil => simp
        | cons y t => simpa using this
      | cons y c =>
        intro hy
        apply hd
        simp at hy
        subst hy
        exact ⟨[], c, by simp⟩
    have hstep : scan_template_chars_loop b lx
        = scan_template_chars_loop true lx.mark_end.advance := by
      rw [scan_template_chars_loop_cons b lx x (c ++ t) hrest1, if_neg hx.1, if_neg hx.2.2]
      by_cases h36 : x = 36
      · rw [if_pos h36, if_neg (hnext h36)]
      · rw [if_neg h36, if_neg hx.2.1]
    have hd1 : ¬ [36, 123] <:+: c := fun h => hd (List.IsInfix.trans h (List.infix_cons (List.infix_refl c)))
    have hl1 : c.getLast? = some 36 → t.head? ≠ some 123 := by
      intro h
      apply hl
      cases c with
      | nil => simp at h
      | cons y c => simpa [List.getLast?_cons_cons] using h
    obtain ⟨lx1, h1, h2, h3, h4, h5⟩ := ih (fun y hy => hc y (by simp [hy])) hd1 hl1 true
      lx.mark_end.advance (by simp [TSLexer.advance, TSLexer.advanceBy, TSLexer.mark_end, hrest1])
    refine ⟨lx1, ?_, h2, ?_, ?_, ?_⟩
    · rw [hstep, h1]; simp
    · rw [h3]; simp [TSLexer.advance, TSLexer.advanceBy, TSLexer.mark_end, hrest1]; omega
    · rw [h4]; simp [TSLexer.advance, TSLexer.advanceBy, TSLexer.mark_end, hrest1]
    · rw [h5]; simp [TSLexer.advance, TSLexer.advanceBy, TSLexer.mark_end, hrest1]


/-- The routine on ordinary content `c` followed by a closing backtick, a backslash or
an interpolation opener. -/
theorem scan_template_chars_delim (lx : TSLexer) (c s rest : List Nat)
    (hc : ∀ x ∈ c, x ≠ 96 ∧ x ≠ 92 ∧ x ≠ 0) (hd : ¬ [36, 123] <:+: c)
    (hs : s = [96] ∨ s = [92] ∨ s = [36, 123])
    (hrest : lx.rest = c ++ s ++ rest) :
    (scan_template_chars lx).1 = !c.isEmpty ∧
    (scan_template_chars lx).2.result_symbol = TEMPLATE_CHARS ∧
    (scan_template_chars lx).2.token_end = some (lx.pos + c.length) ∧
    (scan_template_chars lx).2.token_start = lx.token_start := by
  have hl : c.getLast? = some 36 → (s ++ rest).head? ≠ some 123 := by
    intro _
    rcases hs with h | h | h <;> simp [h]
  obtain ⟨lx1, h1, h2, h3, h4, h5⟩ := scan_template_chars_loop_content c (s ++ rest) hc hd hl
    false (lx.set_result_symbol TEMPLATE_CHARS)
    (by simpa [TSLexer.set_result_symbol] using hrest)
  have h3a : lx1.pos = lx.pos + c.length := by simpa [TSLexer.set_result_symbol] using h3
  have h4a : lx1.token_start = lx.token_start := by
    simpa [TSLexer.set_result_symbol] using h4
  have h5a : lx1.result_symbol = TEMPLATE_CHARS := by
    simpa [TSLexer.set_result_symbol] using h5
  rw [scan_template_chars, h1]
  rcases hs with h | h | h
  · subst h
    rw [scan_template_chars_loop_cons _ lx1 96 rest (by simpa using h2)]
    simp [TSLexer.mark_end, h3a, h4a, h5a]
  · subst h
    rw [scan_template_chars_loop_cons _ lx1 92 rest (by simpa using h2)]
    simp [TSLexer.mark_end, h3a, h4a, h5a]
  · subst h
    have h2a : lx1.rest = 36 :: 123 :: rest := by simpa using h2
    rw [scan_template_chars_loop_cons _ lx1 36 (123 :: rest) h2a]
    simp [TSLexer.mark_end, TSLexer.advance, TSLexer.advanceBy, h2a, h3a, h4a, h5a]

/-- The routine on ordinary content that runs to the end of the input. -/
theorem scan_template_chars_eof (lx : TSLexer)
    (hc : ∀ x ∈ lx.rest, x ≠ 96 ∧ x ≠ 92 ∧ x ≠ 0) (hd : ¬ [36, 123] <:+: lx.rest) :
    (scan_template_chars lx).1 = false ∧
    (scan_template_chars lx).2.result_symbol = TEMPLATE_CHARS ∧
    (scan_template_chars lx).2.token_end = some (lx.pos + lx.rest.length) ∧
    (scan_template_chars lx).2.rest = [] := by
  obtain ⟨lx1, h1, h2, h3, _, h5⟩ := scan_template_chars_loop_content lx.rest [] hc hd
    (by simp) false (lx.set_result_symbol TEMPLATE_CHARS)
    (by simp [TSLexer.set_result_symbol])
  have h3a : lx1.pos = lx.pos + lx.rest.length := by
    simpa [TSLexer.set_result_symbol] using h3
  have h5a : lx1.result_symbol = TEMPLATE_CHARS := by
    simpa [TSLexer.set_result_symbol] using h5
  rw [scan_template_chars, h1, scan_template_chars_loop_nil _ lx1 h2]
  simp [TSLexer.mark_end, h2, h3a, h5a]

/-- What a successful run of the loop has committed: `n` characters of the input, none
of them a backtick, a backslash, a NUL or a dollar that an opening brace follows. -/
theorem scan_template_chars_loop_span (r : List Nat) (b : Bool) (lx : TSLexer)
    (hrest : lx.rest = r) (h : (scan_template_chars_loop b lx).1 = true) :
    ∃ n, (scan_template_chars_loop b lx).2.token_end = some (lx.pos + n) ∧
      (scan_template_chars_loop b lx).2.token_start = lx.token_start ∧
      (scan_template_chars_loop b lx).2.result_symbol = lx.result_symbol ∧
      (b = false → 0 < n) ∧ n ≤ r.length ∧
      ∀ i, i < n → ∀ x, r[i]? = some x →
        x ≠ 96 ∧ x ≠ 92 ∧ x ≠ 0 ∧ (x = 36 → r[i + 1]? ≠ some 123) := by
  induction r generalizing b lx with
  | nil =>
    rw [scan_template_chars_loop_nil b lx hrest] at h
    simp at h
  | cons x t ih =>
    have hadv : lx.mark_end.advance.rest = t := by
      simp [TSLexer.advance, TSLexer.advanceBy, TSLexer.mark_end, hrest]
    have hpos : lx.mark_end.advance.pos = lx.pos + 1 := by
      simp [TSLexer.advance, TSLexer.advanceBy, TSLexer.mark_end, hrest]
    have hts : lx.mark_end.advance.token_start = lx.token_start := by
      simp [TSLexer.advance, TSLexer.advanceBy, TSLexer.mark_end, hrest]
    have hrs : lx.mark_end.advance.result_symbol = lx.result_symbol := by
      simp [TSLexer.advance, TSLexer.advanceBy, TSLexer.mark_end, hrest]
    have hte : lx.mark_end.advance.token_end = some lx.pos := by
      simp [TSLexer.advance, TSLexer.advanceBy, TSLexer.mark_end, hrest]
    -- the case of an iteration that consumes `x` and goes on
    have hgo : (x = 36 → t.headD 0 ≠ 123) → x ≠ 96 → x ≠ 92 → x ≠ 0 →
        scan_template_chars_loop b lx = scan_template_chars_loop true lx.mark_end.advance →
        ∃ n, (scan_template_chars_loop b lx).2.token_end = some (lx.pos + n) ∧
          (scan_template_chars_loop b lx).2.token_start = lx.token_start ∧
          (scan_template_chars_loop b lx).2.result_symbol = lx.result_symbol ∧
          (b = false → 0 < n) ∧ n ≤ (x :: t).length ∧
          ∀ i, i < n → ∀ y, (x :: t)[i]? = some y →
            y ≠ 96 ∧ y ≠ 92 ∧ y ≠ 0 ∧ (y = 36 → (x :: t)[i + 1]? ≠ some 123) := by
      intro hn h96 h92 h0 heq
      rw [heq] at h ⊢
      obtain ⟨n, e1, e2, e3, _, e5, e6⟩ := ih true lx.mark_end.advance hadv h
      refine ⟨n + 1, ?_, ?_, ?_, fun _ => Nat.succ_pos n, ?_, ?_⟩
      · rw [e1, hpos]; congr 1; omega
      · rw [e2, hts]
      · rw [e3, hrs]
      · simpa using e5
      · intro i hi y hy
        cases i with
        | zero =>
          simp at hy
          subst hy
          refine ⟨h96, h92, h0, ?_⟩
          intro h36
          have := hn h36
          cases t with
          | nil => simp
          | cons z t => simpa using this
        | succ j =>
          have := e6 j (by omega) y (by simpa using hy)
          simpa using this
    rw [scan_template_chars_loop_cons b lx x t hrest] at h
    by_cases h96 : x = 96
    · rw [if_pos h96] at h
      rw [scan_template_chars_loop_cons b lx x t hrest, if_pos h96]
      exact ⟨0, by simp [TSLexer.mark_end], by simp [TSLexer.mark_end],
        by simp [TSLexer.mark_end], by simp at h; simp [h], by simp, by simp⟩
    rw [if_neg h96] at h
    by_cases h0 : x = 0
    · rw [if_pos h0] at h
      simp at h
    rw [if_neg h0] at h
    by_cases h36 : x = 36
    · rw [if_pos h36] at h
      by_cases hb : t.headD 0 = 123
      · rw [if_pos hb] at h
        rw [scan_template_chars_loop_cons b lx x t hrest, if_neg h96, if_neg h0, if_pos h36,
          if_pos hb]
        exact ⟨0, by simp [hte], by simp [hts], by simp [hrs], by simp at h; simp [h],
          by simp, by simp⟩
      · apply hgo (fun _ => hb) h96 (by omega) h0
        rw [scan_template_chars_loop_cons b lx x t hrest, if_neg h96, if_neg h0, if_pos h36,
          if_neg hb]
    rw [if_neg h36] at h
    by_cases h92 : x = 92
    · rw [if_pos h92] at h
      rw [scan_template_chars_loop_cons b lx x t hrest, if_neg h96, if_neg h0, if_neg h36,
        if_pos h92]
      exact ⟨0, by simp [TSLexer.mark_end], by simp [TSLexer.mark_end],
        by simp [TSLexer.mark_end], by simp at h; simp [h], by simp, by simp⟩
    · apply hgo (fun h => absurd h h36) h96 h92 h0
      rw [scan_template_chars_loop_cons b lx x t hrest, if_neg h96, if_neg h0, if_neg h36,
        if_neg h92]

/-! ## Lemmas on `scan_html_comment` -/

theorem match_literal_append (lit t : List Nat) (lx : TSLexer) (hrest : lx.rest = lit ++ t) :
    match_literal lit lx =
      (true, { lx with
        rest := t
        pos := lx.pos + lit.length
        trace := List.replicate lit.length (LexerCall.advance false) ++ lx.trace }) := by
  induction lit generalizing lx with
  | nil =>
    cases lx
    simp_all [match_literal]
  | cons c cs ih =>
    have h1 : lx.lookahead = c := by simp [TSLexer.lookahead, hrest]
    have h2 : lx.advance.rest = cs ++ t := by
      simp [TSLexer.advance, TSLexer.advanceBy, hrest]
    rw [match_literal, if_neg (by simpa using h1), ih lx.advance h2]
    cases lx
    simp at hrest
    subst hrest
    simp [TSLexer.advance, TSLexer.advanceBy, List.replicate_succ', Nat.add_assoc,
      Nat.add_comm 1]

theorem match_literal_true (lit : List Nat) (hlit : ∀ c ∈ lit, c ≠ 0) (lx : TSLexer)
    (h : (match_literal lit lx).1 = true) : lit <+: lx.rest := by
  induction lit generalizing lx with
  | nil => exact List.nil_prefix
  | cons c cs ih =>
    rw [match_literal] at h
    by_cases h1 : lx.lookahead = c
    · rw [if_neg (by simpa using h1)] at h
      cases hr : lx.rest with
      | nil =>
        have : c = 0 := by simpa [TSLexer.lookahead, hr] using h1.symm
        exact absurd this (hlit c (by simp))
      | cons a t =>
        have ha : a = c := by simpa [TSLexer.lookahead, hr] using h1
        have := ih (fun y hy => hlit y (by simp [hy])) lx.advance h
        have h2 : lx.advance.rest = t := by simp [TSLexer.advance, TSLexer.advanceBy, hr]
        rw [h2] at this
        subst ha
        exact (List.cons_prefix_cons).mpr ⟨rfl, this⟩
    · rw [if_pos h1] at h
      simp at h

theorem not_line_end_split (r : List Nat) :
    ∃ b t, r = b ++ t ∧ (∀ c ∈ b, not_line_end c = true) ∧ not_line_end (t.headD 0) = false := by
  refine ⟨r.takeWhile not_line_end, r.dropWhile not_line_end,
    (List.takeWhile_append_dropWhile not_line_end r).symm, ?_, ?_⟩
  · intro c hc
    exact List.mem_takeWhile_imp hc
  · cases h : r.dropWhile not_line_end with
    | nil => decide
    | cons a t =>
      have := List.head_dropWhile_not not_line_end r (by simp [h])
      simpa [h] using this

/-- The routine on an input that, after the white space `w`, starts with the opener or
the closer `m`, goes on with `b`, and there meets a line terminator, a NUL, or the end
of the input. -/
theorem scan_html_comment_match (W : WCType) (w m b t : List Nat) (lx : TSLexer)
    (hw : ∀ c ∈ w, html_space W c = true) (hm : m = comment_start ∨ m = comment_end)
    (hb : ∀ c ∈ b, not_line_end c = true) (ht : not_line_end (t.headD 0) = false)
    (hrest : lx.rest = w ++ (m ++ (b ++ t))) :
    scan_html_comment W lx =
      (true,
        { rest := t
          pos := lx.pos + w.length + (m.length + b.length)
          token_start := if w ≠ [] then lx.pos + w.length else lx.token_start
          token_end := some (lx.pos + w.length + (m.length + b.length))
          result_symbol := HTML_COMMENT
          trace := LexerCall.mark_end :: LexerCall.result_symbol HTML_COMMENT ::
            (List.replicate (b.length + m.length) (LexerCall.advance false) ++
              (List.replicate w.length (LexerCall.advance true) ++ lx.trace)) }) := by
  have hsp : html_space W ((m ++ (b ++ t)).headD 0) = false := by
    rcases hm with h | h <;> subst h
    · simpa [html_space, comment_start] using W.iswspace_graph 60 (by omega) (by omega)
    · simpa [html_space, comment_end] using W.iswspace_graph 45 (by omega) (by omega)
  have h1 := TSLexer.skip_while_run (html_space W)
    (by simp [html_space, W.iswspace_nul]) w (m ++ (b ++ t)) hw hsp lx hrest
  rcases hm with h | h <;> subst h
  · have h2 := match_literal_append comment_start (b ++ t)
      { lx with
        rest := comment_start ++ (b ++ t)
        pos := lx.pos + w.length
        token_start := if w ≠ [] then lx.pos + w.length else lx.token_start
        trace := List.replicate w.length (LexerCall.advance true) ++ lx.trace } rfl
    have h3 := TSLexer.advance_while_run not_line_end (by decide) b t hb ht
      { lx with
        rest := b ++ t
        pos := lx.pos + w.length + comment_start.length
        token_start := if w ≠ [] then lx.pos + w.length else lx.token_start
        trace := List.replicate comment_start.length (LexerCall.advance false) ++
          (List.replicate w.length (LexerCall.advance true) ++ lx.trace) } rfl
    dsimp only at h2 h3
    simp only [scan_html_comment, h1]
    simp only [h2]
    simp only [h3]
    simp [TSLexer.lookahead, comment_start, TSLexer.set_result_symbol, TSLexer.mark_end,
      List.replicate_add, Nat.add_assoc]
  · have h2 := match_literal_append comment_end (b ++ t)
      { lx with
        rest := comment_end ++ (b ++ t)
        pos := lx.pos + w.length
        token_start := if w ≠ [] then lx.pos + w.length else lx.token_start
        trace := List.replicate w.length (LexerCall.advance true) ++ lx.trace } rfl
    have h3 := TSLexer.advance_while_run not_line_end (by decide) b t hb ht
      { lx with
        rest := b ++ t
        pos := lx.pos + w.length + comment_end.length
        token_start := if w ≠ [] then lx.pos + w.length else lx.token_start
        trace := List.replicate comment_end.length (LexerCall.advance false) ++
          (List.replicate w.length (LexerCall.advance true) ++ lx.trace) } rfl
    dsimp only at h2 h3
    simp only [scan_html_comment, h1]
    simp only [h2]
    simp only [h3]
    simp [TSLexer.lookahead, comment_end, TSLexer.set_result_symbol, TSLexer.mark_end,
      List.replicate_add, Nat.add_assoc]

theorem html_space_nul (W : WCType) : html_space W 0 = false := by
  simp [html_space, W.iswspace_nul]

theorem html_space_headD (W : WCType) (r : List Nat)
    (hr : ∀ c ∈ r.head?, html_space W c = false) : html_space W (r.headD 0) = false := by
  cases r with
  | nil => simpa using html_space_nul W
  | cons c r => simpa using hr c (by simp)

/-- A successful call has read the opener or the closer right after the white space. -/
theorem scan_html_comment_true (W : WCType) (w r : List Nat) (lx : TSLexer)
    (hw : ∀ c ∈ w, html_space W c = true) (hr : ∀ c ∈ r.head?, html_space W c = false)
    (hrest : lx.rest = w ++ r) (h : (scan_html_comment W lx).1 = true) :
    comment_start <+: r ∨ comment_end <+: r := by
  have h1 := TSLexer.skip_while_run (html_space W) (html_space_nul W) w r hw
    (html_space_headD W r hr) lx hrest
  have hr1 : (lx.consume_while (html_space W) (html_space_nul W) true).rest = r := by
    rw [h1]
  simp only [scan_html_comment] at h
  generalize lx.consume_while (html_space W) (html_space_nul W) true = lx1 at hr1 h
  by_cases h60 : lx1.lookahead = 60
  · rw [if_pos h60] at h
    by_cases hm : (match_literal comment_start lx1).1 = true
    · exact Or.inl (hr1 ▸ match_literal_true comment_start (by decide) lx1 hm)
    · rw [if_neg hm] at h
      simp at h
  · rw [if_neg h60] at h
    by_cases h45 : lx1.lookahead = 45
    · rw [if_pos h45] at h
      by_cases hm : (match_literal comment_end lx1).1 = true
      · exact Or.inr (hr1 ▸ match_literal_true comment_end (by decide) lx1 hm)
      · rw [if_neg hm] at h
        simp at h
    · rw [if_neg h45] at h
      simp at h

/-! ## Lemmas on `scan_whitespace_and_comments` -/

namespace TSLexer

theorem skipN_succ (lx : TSLexer) (n : Nat) : lx.skipN (n + 1) = lx.skip.skipN n := rfl

theorem skipN_add (a b : Nat) (lx : TSLexer) : lx.skipN (a + b) = (lx.skipN a).skipN b := by
  induction a generalizing lx with
  | zero => simp [skipN]
  | succ a ih =>
    rw [Nat.add_right_comm, skipN_succ, ih, skipN_succ]

theorem skipN_skip (lx : TSLexer) (n : Nat) : (lx.skipN n).skip = lx.skipN (n + 1) := by
  rw [skipN_add n 1]
  rfl

/-- Closed form of `n` calls of `skip` over the characters `pre`. -/
theorem skipN_eq (pre t : List Nat) (lx : TSLexer) (hrest : lx.rest = pre ++ t) :
    lx.skipN pre.length =
      { lx with
        rest := t
        pos := lx.pos + pre.length
        token_start := if pre ≠ [] then lx.pos + pre.length else lx.token_start
        trace := List.replicate pre.length (LexerCall.advance true) ++ lx.trace } := by
  induction pre generalizing lx with
  | nil =>
    cases lx
    simp_all [skipN]
  | cons a w ih =>
    have hrest2 : lx.skip.rest = w ++ t := by simp [skip, advanceBy, hrest]
    rw [List.length_cons, skipN_succ, ih lx.skip hrest2]
    cases lx
    simp at hrest
    subst hrest
    cases w <;>
      simp [skip, advanceBy, List.replicate_succ', Nat.add_assoc, Nat.add_comm 1]

theorem skipN_rest (pre t : List Nat) (lx : TSLexer) (hrest : lx.rest = pre ++ t) :
    (lx.skipN pre.length).rest = t := by
  rw [skipN_eq pre t lx hrest]

theorem skipN_lookahead (pre t : List Nat) (lx : TSLexer) (hrest : lx.rest = pre ++ t) :
    (lx.skipN pre.length).lookahead = t.headD 0 := by
  rw [lookahead, skipN_rest pre t lx hrest]

theorem skipN_pos (pre t : List Nat) (lx : TSLexer) (hrest : lx.rest = pre ++ t) :
    (lx.skipN pre.length).pos = lx.pos + pre.length := by
  rw [skipN_eq pre t lx hrest]

theorem skipN_trace (pre t : List Nat) (lx : TSLexer) (hrest : lx.rest = pre ++ t) :
    (lx.skipN pre.length).trace
      = List.replicate pre.length (LexerCall.advance true) ++ lx.trace := by
  rw [skipN_eq pre t lx hrest]

theorem skipN_token_end (lx : TSLexer) (n : Nat) : (lx.skipN n).token_end = lx.token_end := by
  induction n generalizing lx with
  | zero => rfl
  | succ n ih =>
    rw [skipN_succ, ih]
    unfold skip advanceBy
    split <;> rfl

theorem skipN_result_symbol (lx : TSLexer) (n : Nat) :
    (lx.skipN n).result_symbol = lx.result_symbol := by
  induction n generalizing lx with
  | zero => rfl
  | succ n ih =>
    rw [skipN_succ, ih]
    unfold skip advanceBy
    split <;> rfl

/-- The loop with `skip` over the run `w` is `w.length` calls of `skip`. -/
theorem skip_while_skipN (p : Nat → Bool) (hp : p 0 = false) (w r : List Nat)
    (hw : ∀ c ∈ w, p c = true) (hr : p (r.headD 0) = false) (lx : TSLexer)
    (hrest : lx.rest = w ++ r) :
    lx.consume_while p hp true = lx.skipN w.length := by
  rw [skip_while_run p hp w r hw hr lx hrest, skipN_eq w r lx hrest]

end TSLexer

/-- Every text is a run of characters that satisfy `p`, then a text that does not
start with one. -/
theorem run_split (p : Nat → Bool) (l : List Nat) :
    ∃ w r, l = w ++ r ∧ (∀ c ∈ w, p c = true) ∧ (∀ c ∈ r.head?, p c = false) := by
  refine ⟨l.takeWhile p, l.dropWhile p, (List.takeWhile_append_dropWhile p l).symm, ?_, ?_⟩
  · intro c hc
    exact List.mem_takeWhile_imp hc
  · intro c hc
    cases h : l.dropWhile p with
    | nil => simp [h] at hc
    | cons a t =>
      have := List.head_dropWhile_not p l (by simp [h])
      simp [h] at hc this
      rw [← hc]
      simpa using this

theorem headD_of_head (p : Nat → Bool) (hp : p 0 = false) (r : List Nat)
    (hr : ∀ c ∈ r.head?, p c = false) : p (r.headD 0) = false := by
  cases r with
  | nil => simpa using hp
  | cons c r => simpa using hr c (by simp)

theorem block_comment_loop_nul (c sc sbn : Bool) (lx : TSLexer) (h : lx.lookahead = 0) :
    block_comment_loop c sc sbn lx = (none, sc, sbn, lx) := by
  rw [block_comment_loop, dif_pos h]

theorem block_comment_loop_cons (c sc sbn : Bool) (lx : TSLexer) (x : Nat) (t : List Nat)
    (hrest : lx.rest = x :: t) (hx : x ≠ 0) :
    block_comment_loop c sc sbn lx =
      if x = 42 then
        if t.headD 0 = 47 then
          if t.tail.headD 0 ≠ 47 ∧ c = false then
            (some (if sbn then WhitespaceResult.ACCEPT else WhitespaceResult.NO_NEWLINE),
              true, sbn, lx.skipN 2)
          else (none, true, sbn, lx.skipN 2)
        else block_comment_loop c sc sbn lx.skip
      else if is_line_terminator x then block_comment_loop c sc true lx.skip
      else block_comment_loop c sc sbn lx.skip := by
  have h1 : lx.lookahead = x := by simp [TSLexer.lookahead, hrest]
  have h2 : lx.skip.lookahead = t.headD 0 := by
    simp [TSLexer.lookahead, TSLexer.skip, TSLexer.advanceBy, hrest]
  have h3 : lx.skip.skip.lookahead = t.tail.headD 0 := by
    cases t with
    | nil => simp [TSLexer.lookahead, TSLexer.skip, TSLexer.advanceBy, hrest]
    | cons y t => simp [TSLexer.lookahead, TSLexer.skip, TSLexer.advanceBy, hrest]
  conv_lhs => rw [block_comment_loop]
  rw [dif_neg (by rw [h1]; exact hx), h1, h2, h3]
  rfl

/-- The loop runs over a stretch `body` of the comment that holds neither a NUL nor the
closer. -/
theorem block_comment_loop_body (c sc : Bool) (body t : List Nat)
    (hb : ∀ x ∈ body, x ≠ 0) (hd : ¬ [42, 47] <:+: body)
    (hl : body.getLast? = some 42 → t.head? ≠ some 47) (sbn : Bool) (lx : TSLexer)
    (hrest : lx.rest = body ++ t) :
    block_comment_loop c sc sbn lx =
      block_comment_loop c sc (sbn || body.any is_line_terminator)
        (lx.skipN body.length) := by
  induction body generalizing sbn lx with
  | nil => simp [TSLexer.skipN]
  | cons x b ih =>
    have hx := hb x (by simp)
    have hrest1 : lx.rest = x :: (b ++ t) := by simpa using hrest
    have hnext : x = 42 → (b ++ t).headD 0 ≠ 47 := by
      intro hx42
      subst hx42
      cases b with
      | nil =>
        have := hl (by simp)
        cases t with
        | nil => simp
        | cons y t => simpa using this
      | cons y b =>
        intro hy
        apply hd
        simp at hy
        subst hy
        exact ⟨[], b, by simp⟩
    have hd1 : ¬ [42, 47] <:+: b :=
      fun h => hd (List.IsInfix.trans h (List.infix_cons (List.infix_refl b)))
    have hl1 : b.getLast? = some 42 → t.head? ≠ some 47 := by
      intro h
      apply hl
      cases b with
      | nil => simp at h
      | cons y b => simpa [List.getLast?_cons_cons] using h
    have hskip : lx.skip.rest = b ++ t := by
      simp [TSLexer.skip, TSLexer.advanceBy, hrest1]
    have hih := fun s => ih (fun y hy => hb y (by simp [hy])) hd1 hl1 s lx.skip hskip
    rw [block_comment_loop_cons c sc sbn lx x (b ++ t) hrest1 hx, List.length_cons,
      TSLexer.skipN_succ lx b.length]
    by_cases h42 : x = 42
    · rw [if_pos h42, if_neg (hnext h42), hih]
      have : is_line_terminator x = false := by subst h42; decide
      simp [this]
    · rw [if_neg h42]
      by_cases hlt : is_line_terminator x = true
      · rw [if_pos hlt, hih]
        simp [hlt]
      · rw [if_neg hlt, hih]
        simp [hlt]

/-- The loop at the closer of the comment. -/
theorem block_comment_loop_close (c sc sbn : Bool) (t : List Nat) (lx : TSLexer)
    (hrest : lx.rest = 42 :: 47 :: t) :
    block_comment_loop c sc sbn lx =
      (if t.headD 0 ≠ 47 ∧ c = false then
          some (if sbn then WhitespaceResult.ACCEPT else WhitespaceResult.NO_NEWLINE)
        else none, true, sbn, lx.skipN 2) := by
  rw [block_comment_loop_cons c sc sbn lx 42 (47 :: t) hrest (by decide)]
  by_cases h : t.headD 0 ≠ 47 ∧ c = false
  · simp only [List.headD_cons, List.tail_cons, if_true]
    rw [if_pos h, if_pos h]
  · simp only [List.headD_cons, List.tail_cons, if_true]
    rw [if_neg h, if_neg h]

theorem swc_loop_inl (W : WCType) (c sc sbn : Bool) (lx : TSLexer)
    (r : WhitespaceResult × Bool × TSLexer)
    (h : scan_whitespace_and_comments_turn W c sc sbn lx = Sum.inl r) :
    scan_whitespace_and_comments_loop W c sc sbn lx = r := by
  rw [scan_whitespace_and_comments_loop]
  split
  · rename_i r1 h1
    rw [h] at h1
    exact (Sum.inl.inj h1).symm
  · rename_i sc1 sbn1 lx1 h1
    rw [h] at h1
    cases h1

theorem swc_loop_inr (W : WCType) (c sc sbn : Bool) (lx : TSLexer)
    (sc1 sbn1 : Bool) (lx1 : TSLexer)
    (h : scan_whitespace_and_comments_turn W c sc sbn lx = Sum.inr (sc1, sbn1, lx1)) :
    scan_whitespace_and_comments_loop W c sc sbn lx
      = scan_whitespace_and_comments_loop W c sc1 sbn1 lx1 := by
  conv_lhs => rw [scan_whitespace_and_comments_loop]
  split
  · rename_i r1 h1
    rw [h] at h1
    cases h1
  · rename_i sc2 sbn2 lx2 h1
    rw [h] at h1
    cases h1
    rfl

/-- The lexer of a turn after its white space. -/
theorem swc_turn_space (W : WCType) (w r : List Nat) (lx : TSLexer)
    (hw : ∀ c ∈ w, W.iswspace c = true) (hr : ∀ c ∈ r.head?, W.iswspace c = false)
    (hrest : lx.rest = w ++ r) :
    lx.consume_while W.iswspace W.iswspace_nul true = lx.skipN w.length :=
  TSLexer.skip_while_skipN W.iswspace W.iswspace_nul w r hw
    (headD_of_head W.iswspace W.iswspace_nul r hr) lx hrest

/-- A turn that meets, after the white space, something else than a slash. -/
theorem swc_turn_accept (W : WCType) (c sc sbn : Bool) (w r : List Nat) (lx : TSLexer)
    (hw : ∀ c ∈ w, W.iswspace c = true)
    (hr : ∀ c ∈ r.head?, W.iswspace c = false ∧ c ≠ 47)
    (hrest : lx.rest = w ++ r) :
    scan_whitespace_and_comments_turn W c sc sbn lx
      = Sum.inl (WhitespaceResult.ACCEPT, sc, lx.skipN w.length) := by
  have h1 := swc_turn_space W w r lx hw (fun c hc => (hr c hc).1) hrest
  have h2 : (lx.skipN w.length).lookahead ≠ 47 := by
    rw [TSLexer.skipN_lookahead w r lx hrest]
    cases r with
    | nil => simp
    | cons a r => simpa using (hr a (by simp)).2
  simp only [scan_whitespace_and_comments_turn, h1]
  rw [if_neg h2]

theorem iswspace_slash (W : WCType) (r : List Nat) :
    ∀ c ∈ (47 :: r).head?, W.iswspace c = false := by
  intro c hc
  simp at hc
  subst hc
  exact W.iswspace_graph 47 (by omega) (by omega)

/-- A turn that meets a slash and then neither a slash nor a star. -/
theorem swc_turn_reject (W : WCType) (c sc sbn : Bool) (w r : List Nat) (lx : TSLexer)
    (hw : ∀ c ∈ w, W.iswspace c = true)
    (hr : ∀ c ∈ r.head?, c ≠ 47 ∧ c ≠ 42)
    (hrest : lx.rest = w ++ 47 :: r) :
    scan_whitespace_and_comments_turn W c sc sbn lx
      = Sum.inl (WhitespaceResult.REJECT, sc, lx.skipN (w.length + 1)) := by
  have h1 := swc_turn_space W w (47 :: r) lx hw (iswspace_slash W r) hrest
  have h2 : (lx.skipN w.length).lookahead = 47 := by
    rw [TSLexer.skipN_lookahead w (47 :: r) lx hrest]
    rfl
  have h3 : (lx.skipN w.length).skip = lx.skipN (w.length + 1) :=
    TSLexer.skipN_skip lx w.length
  have h4 : (lx.skipN (w.length + 1)).lookahead = r.headD 0 := by
    have := TSLexer.skipN_lookahead (w ++ [47]) r lx (by simpa using hrest)
    simpa using this
  have h5 : r.headD 0 ≠ 47 ∧ r.headD 0 ≠ 42 := by
    cases r with
    | nil => simp
    | cons a r => simpa using hr a (by simp)
  simp only [scan_whitespace_and_comments_turn, h1]
  rw [if_pos h2, h3, h4, if_neg h5.1, if_neg h5.2]

/-- A turn that reads a line comment. -/
theorem swc_turn_line (W : WCType) (c sc sbn : Bool) (w body t : List Nat) (lx : TSLexer)
    (hw : ∀ c ∈ w, W.iswspace c = true)
    (hb : ∀ c ∈ body, not_line_end c = true) (ht : ∀ c ∈ t.head?, not_line_end c = false)
    (hrest : lx.rest = w ++ 47 :: 47 :: (body ++ t)) :
    scan_whitespace_and_comments_turn W c sc sbn lx
      = Sum.inr (true, sbn, lx.skipN (w.length + 2 + body.length)) := by
  have h1 := swc_turn_space W w (47 :: 47 :: (body ++ t)) lx hw (iswspace_slash W _) hrest
  have h2 : (lx.skipN w.length).lookahead = 47 := by
    rw [TSLexer.skipN_lookahead w _ lx hrest]
    rfl
  have h3 : (lx.skipN w.length).skip = lx.skipN (w.length + 1) :=
    TSLexer.skipN_skip lx w.length
  have h4 : (lx.skipN (w.length + 1)).lookahead = 47 := by
    have := TSLexer.skipN_lookahead (w ++ [47]) (47 :: (body ++ t)) lx (by simpa using hrest)
    simpa using this
  have h5 : (lx.skipN (w.length + 1)).skip = lx.skipN (w.length + 2) :=
    TSLexer.skipN_skip lx (w.length + 1)
  have h6 : (lx.skipN (w.length + 2)).rest = body ++ t := by
    have := TSLexer.skipN_rest (w ++ [47, 47]) (body ++ t) lx (by simpa using hrest)
    simpa using this
  have h7 := TSLexer.skip_while_skipN not_line_end (by decide) body t hb
    (headD_of_head not_line_end (by decide) t ht) (lx.skipN (w.length + 2)) h6
  simp only [scan_whitespace_and_comments_turn, h1]
  rw [if_pos h2, h3, if_pos h4, h5, h7, ← TSLexer.skipN_add]

/-- A turn that reads a block comment: what the loop of the comment answers. -/
theorem swc_turn_block (W : WCType) (c sc sbn : Bool) (w r : List Nat) (lx : TSLexer)
    (hw : ∀ c ∈ w, W.iswspace c = true)
    (hrest : lx.rest = w ++ 47 :: 42 :: r) :
    scan_whitespace_and_comments_turn W c sc sbn lx =
      match block_comment_loop c sc sbn (lx.skipN (w.length + 2)) with
      | (some r, sc1, _, lx3) => Sum.inl (r, sc1, lx3)
      | (none, sc1, sbn1, lx3) => Sum.inr (sc1, sbn1, lx3) := by
  have h1 := swc_turn_space W w (47 :: 42 :: r) lx hw (iswspace_slash W _) hrest
  have h2 : (lx.skipN w.length).lookahead = 47 := by
    rw [TSLexer.skipN_lookahead w _ lx hrest]
    rfl
  have h3 : (lx.skipN w.length).skip = lx.skipN (w.length + 1) :=
    TSLexer.skipN_skip lx w.length
  have h4 : (lx.skipN (w.length + 1)).lookahead = 42 := by
    have := TSLexer.skipN_lookahead (w ++ [47]) (42 :: r) lx (by simpa using hrest)
    simpa using this
  have h5 : (lx.skipN (w.length + 1)).skip = lx.skipN (w.length + 2) :=
    TSLexer.skipN_skip lx (w.length + 1)
  simp only [scan_whitespace_and_comments_turn, h1]
  rw [if_pos h2, h3, if_neg (by rw [h4]; decide), if_pos h4, h5]

/-! ### The loop on inputs of a given form -/

theorem swc_loop_accept (W : WCType) (c sc sbn : Bool) (w r : List Nat) (lx : TSLexer)
    (hw : ∀ c ∈ w, W.iswspace c = true)
    (hr : ∀ c ∈ r.head?, W.iswspace c = false ∧ c ≠ 47)
    (hrest : lx.rest = w ++ r) :
    scan_whitespace_and_comments_loop W c sc sbn lx
      = (WhitespaceResult.ACCEPT, sc, lx.skipN w.length) :=
  swc_loop_inl W c sc sbn lx _ (swc_turn_accept W c sc sbn w r lx hw hr hrest)

theorem swc_loop_reject (W : WCType) (c sc sbn : Bool) (w r : List Nat) (lx : TSLexer)
    (hw : ∀ c ∈ w, W.iswspace c = true)
    (hr : ∀ c ∈ r.head?, c ≠ 47 ∧ c ≠ 42)
    (hrest : lx.rest = w ++ 47 :: r) :
    scan_whitespace_and_comments_loop W c sc sbn lx
      = (WhitespaceResult.REJECT, sc, lx.skipN (w.length + 1)) :=
  swc_loop_inl W c sc sbn lx _ (swc_turn_reject W c sc sbn w r lx hw hr hrest)

theorem swc_loop_line (W : WCType) (c sc sbn : Bool) (w body t : List Nat) (lx : TSLexer)
    (hw : ∀ c ∈ w, W.iswspace c = true)
    (hb : ∀ c ∈ body, not_line_end c = true) (ht : ∀ c ∈ t.head?, not_line_end c = false)
    (hrest : lx.rest = w ++ 47 :: 47 :: (body ++ t)) :
    scan_whitespace_and_comments_loop W c sc sbn lx
      = scan_whitespace_and_comments_loop W c true sbn
          (lx.skipN (w.length + 2 + body.length)) :=
  swc_loop_inr W c sc sbn lx _ _ _ (swc_turn_line W c sc sbn w body t lx hw hb ht hrest)

/-- The loop of the comment on a body that is closed. -/
theorem block_comment_loop_closed (c sc sbn : Bool) (body t : List Nat) (lx : TSLexer)
    (hb : ∀ x ∈ body, x ≠ 0) (hd : ¬ [42, 47] <:+: body)
    (hrest : lx.rest = body ++ 42 :: 47 :: t) :
    block_comment_loop c sc sbn lx =
      (if t.headD 0 ≠ 47 ∧ c = false then
          some (if (sbn || body.any is_line_terminator) then WhitespaceResult.ACCEPT
            else WhitespaceResult.NO_NEWLINE)
        else none, true, sbn || body.any is_line_terminator,
        lx.skipN (body.length + 2)) := by
  rw [block_comment_loop_body c sc body (42 :: 47 :: t) hb hd (by simp) sbn lx hrest,
    block_comment_loop_close c sc _ t (lx.skipN body.length)
      (TSLexer.skipN_rest body _ lx hrest), ← TSLexer.skipN_add]

/-- The loop of the comment on a body that meets a NUL or the end of the input before
a closer. -/
theorem block_comment_loop_open (c sc sbn : Bool) (body t : List Nat) (lx : TSLexer)
    (hb : ∀ x ∈ body, x ≠ 0) (hd : ¬ [42, 47] <:+: body) (ht : t.headD 0 = 0)
    (hrest : lx.rest = body ++ t) :
    block_comment_loop c sc sbn lx =
      (none, sc, sbn || body.any is_line_terminator, lx.skipN body.length) := by
  have hl : body.getLast? = some 42 → t.head? ≠ some 47 := by
    intro _
    cases t with
    | nil => simp
    | cons a t =>
      simp at ht
      subst ht
      simp
  rw [block_comment_loop_body c sc body t hb hd hl sbn lx hrest,
    block_comment_loop_nul c sc _ (lx.skipN body.length)
      (by rw [TSLexer.skipN_lookahead body t lx hrest]; exact ht)]

/-- The loop on a closed block comment after which, in peek mode, no slash follows. -/
theorem swc_loop_block_return (W : WCType) (sc sbn : Bool) (w body t : List Nat)
    (lx : TSLexer) (hw : ∀ c ∈ w, W.iswspace c = true)
    (hb : ∀ x ∈ body, x ≠ 0) (hd : ¬ [42, 47] <:+: body) (ht : t.headD 0 ≠ 47)
    (hrest : lx.rest = w ++ 47 :: 42 :: (body ++ 42 :: 47 :: t)) :
    scan_whitespace_and_comments_loop W false sc sbn lx =
      (if (sbn || body.any is_line_terminator) then WhitespaceResult.ACCEPT
        else WhitespaceResult.NO_NEWLINE, true,
        lx.skipN (w.length + 2 + (body.length + 2))) := by
  have h1 := swc_turn_block W false sc sbn w (body ++ 42 :: 47 :: t) lx hw hrest
  have h2 : (lx.skipN (w.length + 2)).rest = body ++ 42 :: 47 :: t := by
    have := TSLexer.skipN_rest (w ++ [47, 42]) (body ++ 42 :: 47 :: t) lx
      (by simpa using hrest)
    simpa using this
  rw [block_comment_loop_closed false sc sbn body t _ hb hd h2,
    if_pos ⟨ht, rfl⟩, ← TSLexer.skipN_add] at h1
  exact swc_loop_inl W false sc sbn lx _ h1

/-- The loop on a closed block comment after which it goes on: in full-consume mode, or
when a slash follows. -/
theorem swc_loop_block_next (W : WCType) (c sc sbn : Bool) (w body t : List Nat)
    (lx : TSLexer) (hw : ∀ c ∈ w, W.iswspace c = true)
    (hb : ∀ x ∈ body, x ≠ 0) (hd : ¬ [42, 47] <:+: body)
    (ht : c = true ∨ t.headD 0 = 47)
    (hrest : lx.rest = w ++ 47 :: 42 :: (body ++ 42 :: 47 :: t)) :
    scan_whitespace_and_comments_loop W c sc sbn lx =
      scan_whitespace_and_comments_loop W c true (sbn || body.any is_line_terminator)
        (lx.skipN (w.length + 2 + (body.length + 2))) := by
  have h1 := swc_turn_block W c sc sbn w (body ++ 42 :: 47 :: t) lx hw hrest
  have h2 : (lx.skipN (w.length + 2)).rest = body ++ 42 :: 47 :: t := by
    have := TSLexer.skipN_rest (w ++ [47, 42]) (body ++ 42 :: 47 :: t) lx
      (by simpa using hrest)
    simpa using this
  have h3 : ¬ (t.headD 0 ≠ 47 ∧ c = false) := by
    rcases ht with h | h
    · simp [h]
    · exact fun h2 => h2.1 h
  rw [block_comment_loop_closed c sc sbn body t _ hb hd h2, if_neg h3,
    ← TSLexer.skipN_add] at h1
  exact swc_loop_inr W c sc sbn lx _ _ _ h1

/-- The loop on a block comment that is not closed before a NUL or the end of the
input. -/
theorem swc_loop_block_open (W : WCType) (c sc sbn : Bool) (w body t : List Nat)
    (lx : TSLexer) (hw : ∀ c ∈ w, W.iswspace c = true)
    (hb : ∀ x ∈ body, x ≠ 0) (hd : ¬ [42, 47] <:+: body) (ht : t.headD 0 = 0)
    (hrest : lx.rest = w ++ 47 :: 42 :: (body ++ t)) :
    scan_whitespace_and_comments_loop W c sc sbn lx =
      (WhitespaceResult.ACCEPT, sc, lx.skipN (w.length + 2 + body.length)) := by
  have h1 := swc_turn_block W c sc sbn w (body ++ t) lx hw hrest
  have h2 : (lx.skipN (w.length + 2)).rest = body ++ t := by
    have := TSLexer.skipN_rest (w ++ [47, 42]) (body ++ t) lx (by simpa using hrest)
    simpa using this
  rw [block_comment_loop_open c sc sbn body t _ hb hd ht h2, ← TSLexer.skipN_add] at h1
  rw [swc_loop_inr W c sc sbn lx _ _ _ h1]
  have h3 : (lx.skipN (w.length + 2 + body.length)).rest = [] ++ t := by
    have := TSLexer.skipN_rest (w ++ 47 :: 42 :: body) t lx (by simpa using hrest)
    have hlen : (w ++ 47 :: 42 :: body).length = w.length + 2 + body.length := by
      simp
      omega
    rw [hlen] at this
    simpa using this
  have h4 : ∀ c ∈ t.head?, W.iswspace c = false ∧ c ≠ 47 := by
    intro a ha
    cases t with
    | nil => simp at ha
    | cons b t =>
      simp at ha ht
      subst ha
      subst ht
      exact ⟨W.iswspace_nul, by decide⟩
  rw [swc_loop_accept W c sc _ [] t _ (by simp) h4 h3]
  rfl

/-- The text after the opener of a block comment: a body without NUL and without
closer, then a closer, a NUL, or the end of the input. -/
theorem block_split (l : List Nat) :
    ∃ body t, l = body ++ t ∧ (∀ x ∈ body, x ≠ 0) ∧ ¬ [42, 47] <:+: body ∧
      (t.headD 0 = 0 ∨ ∃ t2, t = 42 :: 47 :: t2) := by
  induction l with
  | nil => exact ⟨[], [], rfl, by simp, by simp, Or.inl rfl⟩
  | cons x l ih =>
    by_cases h0 : x = 0
    · exact ⟨[], x :: l, rfl, by simp, by simp, Or.inl (by simp [h0])⟩
    by_cases h1 : x = 42 ∧ l.head? = some 47
    · obtain ⟨hx, hl⟩ := h1
      cases l with
      | nil => simp at hl
      | cons y l =>
        simp at hl
        subst hl
        subst hx
        exact ⟨[], 42 :: 47 :: l, rfl, by simp, by simp, Or.inr ⟨l, rfl⟩⟩
    obtain ⟨body, t, hl, hb, hd, ht⟩ := ih
    refine ⟨x :: body, t, by simp [hl], ?_, ?_, ht⟩
    · intro y hy
      rcases List.mem_cons.mp hy with h | h
      · rw [h]; exact h0
      · exact hb y h
    · intro hinf
      rcases List.infix_cons_iff.mp hinf with hp | hi
      · apply h1
        obtain ⟨s, hs⟩ := hp
        simp at hs
        refine ⟨hs.1.symm, ?_⟩
        rw [hl, ← hs.2]
        simp
      · exact hd hi

theorem blockNewlineFree_spaces (W : WCType) (w t : List Nat)
    (hw : ∀ c ∈ w, W.iswspace c = true) (ht : BlockNewlineFree W t) :
    BlockNewlineFree W (w ++ t) := by
  induction w with
  | nil => simpa using ht
  | cons a w ih =>
    exact BlockNewlineFree.space a (w ++ t) (hw a (by simp))
      (ih (fun c hc => hw c (by simp [hc])))

/-- What the loop does on any input: it skips a stretch `pre` of the input and stops
before `post`; the answer tells how `pre` ends and how `post` starts. -/
theorem swc_loop_general (W : WCType) (c : Bool) (n : Nat) :
    ∀ (sc sbn : Bool) (lx : TSLexer), lx.rest.length < n →
    ∃ pre post, lx.rest = pre ++ post ∧
      (scan_whitespace_and_comments_loop W c sc sbn lx).2.2 = lx.skipN pre.length ∧
      ((scan_whitespace_and_comments_loop W c sc sbn lx).1 = WhitespaceResult.NO_NEWLINE →
        c = false ∧ sbn = false ∧
        (scan_whitespace_and_comments_loop W c sc sbn lx).2.1 = true ∧
        BlockNewlineFree W pre) ∧
      ((scan_whitespace_and_comments_loop W c sc sbn lx).1 = WhitespaceResult.REJECT →
        (∃ p, pre = p ++ [47]) ∧ post.headD 0 ≠ 47 ∧ post.headD 0 ≠ 42) ∧
      ((scan_whitespace_and_comments_loop W c sc sbn lx).1 = WhitespaceResult.ACCEPT →
        post.headD 0 ≠ 47 ∧ (c = true → W.iswspace (post.headD 0) = false)) := by
  induction n with
  | zero => intro sc sbn lx h; omega
  | succ n ih =>
    intro sc sbn lx hlen
    obtain ⟨w, r, hwr, hw, hr⟩ := run_split W.iswspace lx.rest
    -- the loop goes on after a piece `w ++ piece` of the input
    have hnext : ∀ (piece t : List Nat) (sc1 sbn1 : Bool), piece ≠ [] →
        lx.rest = (w ++ piece) ++ t →
        scan_whitespace_and_comments_loop W c sc sbn lx
          = scan_whitespace_and_comments_loop W c sc1 sbn1 (lx.skipN (w ++ piece).length) →
        (∀ pre2, sbn1 = false → BlockNewlineFree W pre2 →
          sbn = false ∧ BlockNewlineFree W (w ++ piece ++ pre2)) →
        ∃ pre post, lx.rest = pre ++ post ∧
          (scan_whitespace_and_comments_loop W c sc sbn lx).2.2 = lx.skipN pre.length ∧
          ((scan_whitespace_and_comments_loop W c sc sbn lx).1
              = WhitespaceResult.NO_NEWLINE →
            c = false ∧ sbn = false ∧
            (scan_whitespace_and_comments_loop W c sc sbn lx).2.1 = true ∧
            BlockNewlineFree W pre) ∧
          ((scan_whitespace_and_comments_loop W c sc sbn lx).1 = WhitespaceResult.REJECT →
            (∃ p, pre = p ++ [47]) ∧ post.headD 0 ≠ 47 ∧ post.headD 0 ≠ 42) ∧
          ((scan_whitespace_and_comments_loop W c sc sbn lx).1 = WhitespaceResult.ACCEPT →
            post.headD 0 ≠ 47 ∧ (c = true → W.iswspace (post.headD 0) = false)) := by
      intro piece t sc1 sbn1 hne hrest heq hbnf
      have hrest1 : (lx.skipN (w ++ piece).length).rest = t :=
        TSLexer.skipN_rest (w ++ piece) t lx hrest
      have hlt : (lx.skipN (w ++ piece).length).rest.length < n := by
        rw [hrest1]
        have : 0 < piece.length := List.length_pos.mpr hne
        rw [hrest] at hlen
        simp at hlen
        omega
      obtain ⟨pre2, post2, h1, h2, h3, h4, h5⟩ := ih sc1 sbn1 _ hlt
      rw [hrest1] at h1
      refine ⟨w ++ piece ++ pre2, post2, by rw [hrest, h1]; simp [List.append_assoc], ?_, ?_, ?_, ?_⟩
      · rw [heq, h2, ← TSLexer.skipN_add, ← List.length_append]
      · rw [heq]
        intro h
        obtain ⟨e1, e2, e3, e4⟩ := h3 h
        obtain ⟨e5, e6⟩ := hbnf pre2 e2 e4
        exact ⟨e1, e5, e3, e6⟩
      · rw [heq]
        intro h
        obtain ⟨⟨p, hp⟩, e2⟩ := h4 h
        exact ⟨⟨w ++ piece ++ p, by simp [hp, List.append_assoc]⟩, e2⟩
      · rw [heq]
        exact h5
    cases r with
    | nil =>
      rw [swc_loop_accept W c sc sbn w [] lx hw (by simp) hwr]
      exact ⟨w, [], hwr, rfl, by simp, by simp, by
        intro _
        exact ⟨by simp, fun _ => by simpa using W.iswspace_nul⟩⟩
    | cons a r =>
      have ha : W.iswspace a = false := hr a (by simp)
      by_cases h47 : a = 47
      swap
      · rw [swc_loop_accept W c sc sbn w (a :: r) lx hw
          (by intro x hx; simp at hx; subst hx; exact ⟨ha, h47⟩) hwr]
        exact ⟨w, a :: r, hwr, rfl, by simp, by simp, by
          intro _
          exact ⟨by simpa using h47, fun _ => by simpa using ha⟩⟩
      subst h47
      cases r with
      | nil =>
        rw [swc_loop_reject W c sc sbn w [] lx hw (by simp) hwr]
        exact ⟨w ++ [47], [], by simpa using hwr, by simp, by simp,
          fun _ => ⟨⟨w, rfl⟩, by simp, by simp⟩, by simp⟩
      | cons b r =>
        by_cases hb47 : b = 47
        · subst hb47
          obtain ⟨body, t, hbt, hbody, ht⟩ := not_line_end_split r
          have ht1 : ∀ x ∈ t.head?, not_line_end x = false := by
            intro x hx
            cases t with
            | nil => simp at hx
            | cons y t =>
              simp at hx
              subst hx
              simpa using ht
          have hrest : lx.rest = w ++ 47 :: 47 :: (body ++ t) := by rw [hwr, hbt]
          have heq := swc_loop_line W c sc sbn w body t lx hw hbody ht1 hrest
          have hlen2 : (w ++ (47 :: 47 :: body)).length = w.length + 2 + body.length := by
            simp
            omega
          refine hnext (47 :: 47 :: body) t true sbn (by simp) (by simpa using hrest)
            (by rw [hlen2]; exact heq) ?_
          intro pre2 hs hp
          refine ⟨hs, ?_⟩
          rw [List.append_assoc]
          exact blockNewlineFree_spaces W w _ hw
            (BlockNewlineFree.line body pre2 hbody hp)
        by_cases hb42 : b = 42
        · subst hb42
          obtain ⟨body, t, hbt, hbody, hd, ht⟩ := block_split r
          rcases ht with ht | ⟨t2, ht2⟩
          · -- the comment is not closed
            have hrest : lx.rest = w ++ 47 :: 42 :: (body ++ t) := by rw [hwr, hbt]
            rw [swc_loop_block_open W c sc sbn w body t lx hw hbody hd ht hrest]
            refine ⟨w ++ 47 :: 42 :: body, t, by simpa using hrest, ?_, by simp, by simp, ?_⟩
            · have : (w ++ 47 :: 42 :: body).length = w.length + 2 + body.length := by
                simp
                omega
              rw [this]
            · intro _
              rw [ht]
              exact ⟨by decide, fun _ => W.iswspace_nul⟩
          · subst ht2
            have hrest : lx.rest = w ++ 47 :: 42 :: (body ++ 42 :: 47 :: t2) := by
              rw [hwr, hbt]
            have hlen2 : (w ++ (47 :: 42 :: (body ++ [42, 47]))).length
                = w.length + 2 + (body.length + 2) := by
              simp
              omega
            by_cases hret : t2.headD 0 ≠ 47 ∧ c = false
            · -- the routine returns after the comment
              obtain ⟨hret1, hret2⟩ := hret
              subst hret2
              rw [swc_loop_block_return W sc sbn w body t2 lx hw hbody hd hret1 hrest]
              refine ⟨w ++ (47 :: 42 :: (body ++ [42, 47])), t2, by simpa using hrest,
                by rw [hlen2], ?_, ?_, ?_⟩
              · intro h
                have hs : (sbn || body.any is_line_terminator) = false := by
                  cases hh : (sbn || body.any is_line_terminator)
                  · rfl
                  · simp [hh] at h
                simp only [Bool.or_eq_false_iff] at hs
                refine ⟨rfl, hs.1, rfl, ?_⟩
                have hbody2 : ∀ x ∈ body, is_line_terminator x = false := by
                  intro x hx
                  have := hs.2
                  simp only [List.any_eq_false] at this
                  simpa using this x hx
                have := blockNewlineFree_spaces W w _ hw
                  (BlockNewlineFree.block body [] hbody2 BlockNewlineFree.nil)
                simpa using this
              · intro h
                cases hh : (sbn || body.any is_line_terminator) <;> simp [hh] at h
              · intro _
                exact ⟨hret1, fun h => by cases h⟩
            · -- the loop goes on after the comment
              have hcont : c = true ∨ t2.headD 0 = 47 := by
                by_cases hc : c = true
                · exact Or.inl hc
                · right
                  by_contra h
                  exact hret ⟨h, by simpa using hc⟩
              have heq := swc_loop_block_next W c sc sbn w body t2 lx hw hbody hd hcont hrest
              refine hnext (47 :: 42 :: (body ++ [42, 47])) t2 true
                (sbn || body.any is_line_terminator) (by simp) (by simpa using hrest)
                (by rw [hlen2]; exact heq) ?_
              intro pre2 hs hp
              simp only [Bool.or_eq_false_iff] at hs
              refine ⟨hs.1, ?_⟩
              have hbody2 : ∀ x ∈ body, is_line_terminator x = false := by
                intro x hx
                have := hs.2
                simp only [List.any_eq_false] at this
                simpa using this x hx
              have := blockNewlineFree_spaces W w _ hw
                (BlockNewlineFree.block body pre2 hbody2 hp)
              simpa using this
        · rw [swc_loop_reject W c sc sbn w (b :: r) lx hw
            (by intro x hx; simp at hx; subst hx; exact ⟨hb47, hb42⟩) hwr]
          exact ⟨w ++ [47], b :: r, by simpa using hwr, by simp, by simp,
            fun _ => ⟨⟨w, rfl⟩, by simpa using hb47, by simpa using hb42⟩, by simp⟩

theorem swc_turn_skip_space (W : WCType) (c sc sbn : Bool) (lx : TSLexer)
    (h : W.iswspace lx.lookahead = true) :
    scan_whitespace_and_comments_turn W c sc sbn lx
      = scan_whitespace_and_comments_turn W c sc sbn lx.skip := by
  simp only [scan_whitespace_and_comments_turn]
  rw [TSLexer.consume_while_step W.iswspace W.iswspace_nul true lx h]
  rfl

theorem swc_loop_skip_space (W : WCType) (c sc sbn : Bool) (lx : TSLexer)
    (h : W.iswspace lx.lookahead = true) :
    scan_whitespace_and_comments_loop W c sc sbn lx
      = scan_whitespace_and_comments_loop W c sc sbn lx.skip := by
  have h1 := swc_turn_skip_space W c sc sbn lx h
  cases h2 : scan_whitespace_and_comments_turn W c sc sbn lx.skip with
  | inl r =>
    rw [swc_loop_inl W c sc sbn lx r (h1.trans h2), swc_loop_inl W c sc sbn lx.skip r h2]
  | inr x =>
    obtain ⟨sc1, sbn1, lx1⟩ := x
    rw [swc_loop_inr W c sc sbn lx sc1 sbn1 lx1 (h1.trans h2),
      swc_loop_inr W c sc sbn lx.skip sc1 sbn1 lx1 h2]

theorem not_line_end_false_iff (x : Nat) :
    not_line_end x = false ↔ x = 0 ∨ is_line_terminator x = true := by
  unfold not_line_end is_line_terminator
  by_cases h0 : x = 0 <;> by_cases h1 : x = 10 <;> by_cases h2 : x = 8232 <;>
    by_cases h3 : x = 8233 <;> simp [h0, h1, h2, h3]

/-- The loop on white space and line comments. -/
theorem swc_loop_line_gap (W : WCType) (input : List Nat) (b : Bool)
    (h : LineCommentGap W input b) :
    ∀ (c sc sbn : Bool) (lx : TSLexer), lx.rest = input →
      (scan_whitespace_and_comments_loop W c sc sbn lx).1 = WhitespaceResult.ACCEPT ∧
      (scan_whitespace_and_comments_loop W c sc sbn lx).2.1 = (sc || b) := by
  induction h with
  | done r hr =>
    intro c sc sbn lx hrest
    rw [swc_loop_accept W c sc sbn [] r lx (by simp) hr (by simpa using hrest)]
    simp
  | space a t b ha _ ih =>
    intro c sc sbn lx hrest
    rw [swc_loop_skip_space W c sc sbn lx (by simpa [TSLexer.lookahead, hrest] using ha)]
    exact ih c sc sbn lx.skip (by simp [TSLexer.skip, TSLexer.advanceBy, hrest])
  | line body t b hbody ht _ ih =>
    intro c sc sbn lx hrest
    obtain ⟨b1, b2, hb12, hb1, hb2⟩ := not_line_end_split body
    have hstop : ∀ x ∈ (b2 ++ t).head?, not_line_end x = false := by
      intro x hx
      cases b2 with
      | nil =>
        exact (not_line_end_false_iff x).mpr (Or.inr (ht x (by simpa using hx)))
      | cons y b2 =>
        simp at hx
        subst hx
        simpa using hb2
    have hrest1 : lx.rest = [] ++ 47 :: 47 :: (b1 ++ (b2 ++ t)) := by
      rw [hrest, hb12]
      simp
    rw [swc_loop_line W c sc sbn [] b1 (b2 ++ t) lx (by simp) hb1 hstop hrest1]
    have hrest2 : (lx.skipN (([] : List Nat).length + 2 + b1.length)).rest = b2 ++ t := by
      have := TSLexer.skipN_rest (47 :: 47 :: b1) (b2 ++ t) lx (by simpa using hrest1)
      have hl : (47 :: 47 :: b1).length = ([] : List Nat).length + 2 + b1.length := by
        simp
        omega
      rw [hl] at this
      exact this
    cases b2 with
    | nil =>
      have := ih c true sbn _ (by simpa using hrest2)
      simpa using this
    | cons y b2 =>
      have hy : y = 0 := by
        have h1 : not_line_end y = false := by simpa using hb2
        have h2 : is_line_terminator y = false := hbody y (by rw [hb12]; simp)
        rcases (not_line_end_false_iff y).mp h1 with h | h
        · exact h
        · rw [h2] at h
          cases h
      subst hy
      rw [swc_loop_accept W c true sbn [] (0 :: (b2 ++ t)) _ (by simp)
        (by intro x hx; simp at hx; subst hx; exact ⟨W.iswspace_nul, by decide⟩)
        (by simpa using hrest2)]
      simp

/-! ## Lemmas on the calls made on the lexer -/

theorem count_mark_end_skips (n : Nat) :
    (List.replicate n (LexerCall.advance true)).count LexerCall.mark_end = 0 := by
  rw [List.count_replicate]
  simp

theorem mark_end_not_mem_skips (n : Nat) :
    LexerCall.mark_end ∉ List.replicate n (LexerCall.advance true) := by
  intro h
  have := List.eq_of_mem_replicate h
  cases this

/-- What `scan_ternary_qmark` does on any input: `w` is the white space it skips, `r`
the rest, `calls` the calls it makes on the lexer. -/
theorem scan_ternary_qmark_general (W : WCType) (lx : TSLexer) :
    ∃ w r calls, lx.rest = w ++ r ∧ (∀ c ∈ w, W.iswspace c = true) ∧
      (scan_ternary_qmark W lx).2.trace = calls ++ lx.trace ∧
      calls.length ≤ lx.rest.length + 2 ∧
      calls.count LexerCall.mark_end ≤ 1 ∧
      ((scan_ternary_qmark W lx).1 = true →
        (scan_ternary_qmark W lx).2.result_symbol = TERNARY_QMARK ∧
        LexerCall.mark_end ∈ calls) ∧
      (LexerCall.mark_end ∈ calls →
        r.head? = some 63 ∧
        (scan_ternary_qmark W lx).2.token_start
          = (if w ≠ [] then lx.pos + w.length else lx.token_start) ∧
        (scan_ternary_qmark W lx).2.token_end = some (lx.pos + w.length + 1) ∧
        ∃ later, calls = later ++ [LexerCall.mark_end, LexerCall.advance false] ++
          List.replicate w.length (LexerCall.advance true)) := by
  obtain ⟨w, r, hwr, hw, hr⟩ := run_split W.iswspace lx.rest
  have hother : (∀ c ∈ r.head?, W.iswspace c = false ∧ c ≠ 63) →
      ∃ w r calls, lx.rest = w ++ r ∧ (∀ c ∈ w, W.iswspace c = true) ∧
      (scan_ternary_qmark W lx).2.trace = calls ++ lx.trace ∧
      calls.length ≤ lx.rest.length + 2 ∧
      calls.count LexerCall.mark_end ≤ 1 ∧
      ((scan_ternary_qmark W lx).1 = true →
        (scan_ternary_qmark W lx).2.result_symbol = TERNARY_QMARK ∧
        LexerCall.mark_end ∈ calls) ∧
      (LexerCall.mark_end ∈ calls →
        r.head? = some 63 ∧
        (scan_ternary_qmark W lx).2.token_start
          = (if w ≠ [] then lx.pos + w.length else lx.token_start) ∧
        (scan_ternary_qmark W lx).2.token_end = some (lx.pos + w.length + 1) ∧
        ∃ later, calls = later ++ [LexerCall.mark_end, LexerCall.advance false] ++
          List.replicate w.length (LexerCall.advance true)) := by
    intro hc
    refine ⟨w, r, List.replicate w.length (LexerCall.advance true), hwr, hw, ?_, ?_, ?_, ?_, ?_⟩
    · rw [scan_ternary_qmark_other W w r lx hw hwr hc]
    · rw [hwr]
      simp
      omega
    · rw [count_mark_end_skips]
      omega
    · rw [scan_ternary_qmark_other W w r lx hw hwr hc]
      intro h
      cases h
    · intro h
      exact absurd h (mark_end_not_mem_skips _)
  cases r with
  | nil => exact hother (by simp)
  | cons a r =>
    by_cases h63 : a = 63
    swap
    · exact hother (by intro x hx; simp at hx; subst hx; exact ⟨hr a (by simp), h63⟩)
    subst h63
    cases r with
    | nil =>
      -- a question mark at the end of the input
      refine ⟨w, [63], [LexerCall.result_symbol TERNARY_QMARK, LexerCall.mark_end,
        LexerCall.advance false] ++ List.replicate w.length (LexerCall.advance true),
        hwr, hw, ?_, ?_, ?_, ?_, ?_⟩
      · rw [scan_ternary_qmark_single W w [] lx hw hwr (by simp)]
      · rw [hwr]
        simp
      · simp [List.count_cons, count_mark_end_skips]
      · rw [scan_ternary_qmark_single W w [] lx hw hwr (by simp)]
        intro _
        exact ⟨rfl, by simp⟩
      · intro _
        rw [scan_ternary_qmark_single W w [] lx hw hwr (by simp)]
        exact ⟨rfl, rfl, rfl, [LexerCall.result_symbol TERNARY_QMARK], by simp⟩
    | cons b r =>
      by_cases hb63 : b = 63
      · subst hb63
        refine ⟨w, 63 :: 63 :: r,
          LexerCall.advance false :: List.replicate w.length (LexerCall.advance true),
          hwr, hw, ?_, ?_, ?_, ?_, ?_⟩
        · rw [scan_ternary_qmark_double W w r lx hw hwr]
          try simp
        · rw [hwr]
          simp
          try omega
        · simp [List.count_cons, count_mark_end_skips]
        · rw [scan_ternary_qmark_double W w r lx hw hwr]
          intro h
          cases h
        · intro h
          rcases List.mem_cons.mp h with h | h
          · cases h
          · exact absurd h (mark_end_not_mem_skips _)
      by_cases hb46 : b = 46
      · subst hb46
        refine ⟨w, 63 :: 46 :: r,
          [LexerCall.advance false, LexerCall.result_symbol TERNARY_QMARK,
            LexerCall.mark_end, LexerCall.advance false] ++
            List.replicate w.length (LexerCall.advance true),
          hwr, hw, ?_, ?_, ?_, ?_, ?_⟩
        · rw [scan_ternary_qmark_dot W w r lx hw hwr]
          try simp
        · rw [hwr]
          simp
          try omega
        · simp [List.count_cons, count_mark_end_skips]
        · rw [scan_ternary_qmark_dot W w r lx hw hwr]
          intro _
          exact ⟨rfl, by simp⟩
        · intro _
          rw [scan_ternary_qmark_dot W w r lx hw hwr]
          exact ⟨rfl, rfl, rfl,
            [LexerCall.advance false, LexerCall.result_symbol TERNARY_QMARK], by simp⟩
      · have hc : ∀ c ∈ (b :: r).head?, c ≠ 63 ∧ c ≠ 46 := by
          intro x hx
          simp at hx
          subst hx
          exact ⟨hb63, hb46⟩
        refine ⟨w, 63 :: b :: r, [LexerCall.result_symbol TERNARY_QMARK, LexerCall.mark_end,
          LexerCall.advance false] ++ List.replicate w.length (LexerCall.advance true),
          hwr, hw, ?_, ?_, ?_, ?_, ?_⟩
        · rw [scan_ternary_qmark_single W w (b :: r) lx hw hwr hc]
        · rw [hwr]
          simp
          try omega
        · simp [List.count_cons, count_mark_end_skips]
        · rw [scan_ternary_qmark_single W w (b :: r) lx hw hwr hc]
          intro _
          exact ⟨rfl, by simp⟩
        · intro _
          rw [scan_ternary_qmark_single W w (b :: r) lx hw hwr hc]
          exact ⟨rfl, rfl, rfl, [LexerCall.result_symbol TERNARY_QMARK], by simp⟩

/-- The calls of the loop of `scan_template_chars`: there is a `mark_end` among them, and
they are at most two for each character of the input, and one. -/
theorem scan_template_chars_loop_trace (r : List Nat) (b : Bool) (lx : TSLexer)
    (hrest : lx.rest = r) :
    ∃ calls, (scan_template_chars_loop b lx).2.trace = calls ++ lx.trace ∧
      LexerCall.mark_end ∈ calls ∧ calls.length ≤ 2 * r.length + 1 := by
  induction r generalizing b lx with
  | nil =>
    rw [scan_template_chars_loop_nil b lx hrest]
    exact ⟨[LexerCall.mark_end], by simp [TSLexer.mark_end], by simp, by simp⟩
  | cons x t ih =>
    have hstop : ∃ calls, lx.mark_end.trace = calls ++ lx.trace ∧
        LexerCall.mark_end ∈ calls ∧ calls.length ≤ 2 * (x :: t).length + 1 :=
      ⟨[LexerCall.mark_end], by simp [TSLexer.mark_end], by simp, by simp⟩
    have hadv : lx.mark_end.advance.trace
        = [LexerCall.advance false, LexerCall.mark_end] ++ lx.trace := by
      simp [TSLexer.advance, TSLexer.advanceBy, TSLexer.mark_end, hrest]
    have hgo : ∃ calls, (scan_template_chars_loop true lx.mark_end.advance).2.trace
          = calls ++ lx.trace ∧
        LexerCall.mark_end ∈ calls ∧ calls.length ≤ 2 * (x :: t).length + 1 := by
      obtain ⟨calls, h1, _, h3⟩ := ih true lx.mark_end.advance
        (by simp [TSLexer.advance, TSLexer.advanceBy, TSLexer.mark_end, hrest])
      refine ⟨calls ++ [LexerCall.advance false, LexerCall.mark_end], ?_, by simp, ?_⟩
      · rw [h1, hadv, List.append_assoc]
      · simp
        omega
    rw [scan_template_chars_loop_cons b lx x t hrest]
    by_cases h96 : x = 96
    · rw [if_pos h96]
      exact hstop
    rw [if_neg h96]
    by_cases h0 : x = 0
    · rw [if_pos h0]
      exact hstop
    rw [if_neg h0]
    by_cases h36 : x = 36
    · rw [if_pos h36]
      by_cases hb : t.headD 0 = 123
      · rw [if_pos hb]
        exact ⟨[LexerCall.advance false, LexerCall.mark_end], hadv, by simp, by simp; omega⟩
      · rw [if_neg hb]
        exact hgo
    rw [if_neg h36]
    by_cases h92 : x = 92
    · rw [if_pos h92]
      exact hstop
    · rw [if_neg h92]
      exact hgo

theorem scan_template_chars_trace (lx : TSLexer) :
    ∃ calls, (scan_template_chars lx).2.trace = calls ++ lx.trace ∧
      LexerCall.mark_end ∈ calls ∧ calls.length ≤ 2 * lx.rest.length + 2 := by
  obtain ⟨calls, h1, h2, h3⟩ := scan_template_chars_loop_trace lx.rest false
    (lx.set_result_symbol TEMPLATE_CHARS) rfl
  refine ⟨calls ++ [LexerCall.result_symbol TEMPLATE_CHARS], ?_, by simp [h2], ?_⟩
  · rw [scan_template_chars, h1]
    simp [TSLexer.set_result_symbol]
  · simp
    omega

/-- A loop of the lexer makes one call for each character it consumes. -/
theorem consume_while_budget (p : Nat → Bool) (hp : p 0 = false) (s : Bool) (lx : TSLexer) :
    (lx.consume_while p hp s).trace.length + (lx.consume_while p hp s).rest.length
      = lx.trace.length + lx.rest.length := by
  obtain ⟨w, r, hwr, hw, hr⟩ := run_split p lx.rest
  rw [TSLexer.consume_while_run p hp s w r hw (headD_of_head p hp r hr) lx hwr, hwr]
  simp
  omega

/-- So does the reading of a literal. -/
theorem match_literal_budget (lit : List Nat) (hlit : ∀ c ∈ lit, c ≠ 0) (lx : TSLexer) :
    (match_literal lit lx).2.trace.length + (match_literal lit lx).2.rest.length
      = lx.trace.length + lx.rest.length := by
  induction lit generalizing lx with
  | nil => rfl
  | cons c cs ih =>
    rw [match_literal]
    by_cases h1 : lx.lookahead = c
    · rw [if_neg (by simpa using h1), ih (fun y hy => hlit y (by simp [hy]))]
      cases hr : lx.rest with
      | nil =>
        have : c = 0 := by simpa [TSLexer.lookahead, hr] using h1.symm
        exact absurd this (hlit c (by simp))
      | cons a t =>
        simp [TSLexer.advance, TSLexer.advanceBy, hr]
        omega
    · rw [if_pos h1]

/-- The calls of `scan_html_comment` are at most one for each character of the input,
and two. -/
theorem scan_html_comment_budget (W : WCType) (lx : TSLexer) :
    (scan_html_comment W lx).2.trace.length ≤ lx.trace.length + lx.rest.length + 2 := by
  have h1 := consume_while_budget (html_space W) (html_space_nul W) true lx
  simp only [scan_html_comment]
  generalize lx.consume_while (html_space W) (html_space_nul W) true = lx1 at h1
  have hbody : ∀ lit : List Nat, (∀ c ∈ lit, c ≠ 0) →
      (if (match_literal lit lx1).1 = true then
        (true, (((match_literal lit lx1).2.consume_while not_line_end (by decide)
          false).set_result_symbol HTML_COMMENT).mark_end)
      else (false, (match_literal lit lx1).2)).2.trace.length
        ≤ lx.trace.length + lx.rest.length + 2 := by
    intro lit hlit
    have h2 := match_literal_budget lit hlit lx1
    have h3 := consume_while_budget not_line_end (by decide) false (match_literal lit lx1).2
    by_cases hm : (match_literal lit lx1).1 = true
    · rw [if_pos hm]
      simp only [TSLexer.mark_end, TSLexer.set_result_symbol, List.length_cons]
      omega
    · rw [if_neg hm]
      simp only
      omega
  by_cases h60 : lx1.lookahead = 60
  · rw [if_pos h60]
    exact hbody comment_start (by decide)
  · rw [if_neg h60]
    by_cases h45 : lx1.lookahead = 45
    · rw [if_pos h45]
      exact hbody comment_end (by decide)
    · rw [if_neg h45]
      simp only
      omega

/-- A successful `scan_html_comment`: the end is marked after at least three
characters of the token. -/
theorem scan_html_comment_success (W : WCType) (lx : TSLexer)
    (h : (scan_html_comment W lx).1 = true) :
    ∃ (w : List Nat) (n : Nat) (calls : List LexerCall),
      (scan_html_comment W lx).2.trace = calls ++ lx.trace ∧
      LexerCall.mark_end ∈ calls ∧
      (scan_html_comment W lx).2.result_symbol = HTML_COMMENT ∧
      (scan_html_comment W lx).2.token_start
        = (if w ≠ [] then lx.pos + w.length else lx.token_start) ∧
      (scan_html_comment W lx).2.token_end = some (lx.pos + w.length + n) ∧ 3 ≤ n := by
  obtain ⟨w, r, hwr, hw, hr⟩ := run_split (html_space W) lx.rest
  have hp := scan_html_comment_true W w r lx hw hr hwr h
  have hm : ∃ m r2, (m = comment_start ∨ m = comment_end) ∧ r = m ++ r2 := by
    rcases hp with ⟨r2, h2⟩ | ⟨r2, h2⟩
    · exact ⟨comment_start, r2, Or.inl rfl, h2.symm⟩
    · exact ⟨comment_end, r2, Or.inr rfl, h2.symm⟩
  obtain ⟨m, r2, hm, hr2⟩ := hm
  obtain ⟨b, t, hbt, hb, ht⟩ := not_line_end_split r2
  have hlen : 3 ≤ m.length := by
    rcases hm with h | h <;> subst h <;> decide
  rw [scan_html_comment_match W w m b t lx hw hm hb ht (by rw [hwr, hr2, hbt])]
  refine ⟨w, m.length + b.length,
    LexerCall.mark_end :: LexerCall.result_symbol HTML_COMMENT ::
      (List.replicate (b.length + m.length) (LexerCall.advance false) ++
        List.replicate w.length (LexerCall.advance true)),
    by simp, by simp, rfl, rfl, rfl, by omega⟩

/-! ## The dispatcher -/

/-- C1: `tree_sitter_tsz_external_scanner_scan` runs one routine, chosen in a fixed
order of priority. With `TEMPLATE_CHARS` admissible the call is `scan_template_chars`:
the same return value and the same effect on the lexer, whether that routine succeeds
or not. Otherwise, with `TERNARY_QMARK` admissible, it is `scan_ternary_qmark`.
Otherwise, with `HTML_COMMENT` admissible and none of `LOGICAL_OR`, `ESCAPE_SEQUENCE`,
`REGEX_PATTERN`, it is `scan_html_comment`. Otherwise the call returns false. -/
theorem scan_priority_order (W : WCType) (payload : Nat) (lx : TSLexer)
    (v : Nat → Bool) :
    (v TEMPLATE_CHARS = true →
      tree_sitter_tsz_external_scanner_scan W payload lx v = scan_template_chars lx) ∧
    (v TEMPLATE_CHARS = false → v TERNARY_QMARK = true →
      tree_sitter_tsz_external_scanner_scan W payload lx v = scan_ternary_qmark W lx) ∧
    (v TEMPLATE_CHARS = false → v TERNARY_QMARK = false → v HTML_COMMENT = true →
      v LOGICAL_OR = false → v ESCAPE_SEQUENCE = false → v REGEX_PATTERN = false →
      tree_sitter_tsz_external_scanner_scan W payload lx v = scan_html_comment W lx) ∧
    (v TEMPLATE_CHARS = false → v TERNARY_QMARK = false →
      (v HTML_COMMENT = false ∨ v LOGICAL_OR = true ∨ v ESCAPE_SEQUENCE = true ∨
        v REGEX_PATTERN = true) →
      tree_sitter_tsz_external_scanner_scan W payload lx v = (false, lx)) := by
  refine ⟨?_, ?_, ?_, ?_⟩
  · intro h0
    simp [tree_sitter_tsz_external_scanner_scan, h0]
  · intro h0 h1
    simp [tree_sitter_tsz_external_scanner_scan, h0, h1]
  · intro h0 h1 h2 h3 h4 h5
    simp [tree_sitter_tsz_external_scanner_scan, h0, h1, h2, h3, h4, h5]
  · intro h0 h1 h
    rcases h with h | h | h | h <;>
      simp [tree_sitter_tsz_external_scanner_scan, h0, h1, h]

/-- Witness of C1: on the input `?x` with every kind admissible the dispatcher is
`scan_template_chars`, although `TERNARY_QMARK` is admissible too. -/
theorem scan_priority_order_witness :
    (fun _ : Nat => true) TEMPLATE_CHARS = true ∧
    tree_sitter_tsz_external_scanner_scan cLocale 0 (TSLexer.start 0 [63, 120])
      (fun _ => true) = scan_template_chars (TSLexer.start 0 [63, 120]) :=
  ⟨rfl, (scan_priority_order cLocale 0 (TSLexer.start 0 [63, 120]) (fun _ => true)).1 rfl⟩

/-! ## The ternary / optional-chaining routine -/

/-- C2, as the code behaves: on white space, a question mark, a dot and a decimal
digit, `scan_ternary_qmark` returns true with the kind `TERNARY_QMARK`; the committed
token is the question mark alone (its end was marked before the dot), and the cursor
stands after the dot. The lexer is one whose token starts at the cursor, as the host
hands it over. -/
theorem scan_ternary_qmark_dot_digit (W : WCType) (lx : TSLexer) (w : List Nat)
    (d : Nat) (rest : List Nat)
    (hw : ∀ c ∈ w, W.iswspace c = true) (hd : iswdigit d = true)
    (hstart : lx.token_start = lx.pos)
    (hrest : lx.rest = w ++ [63] ++ [46] ++ [d] ++ rest) :
    (scan_ternary_qmark W lx).1 = true ∧
    (scan_ternary_qmark W lx).2.result_symbol = TERNARY_QMARK ∧
    (scan_ternary_qmark W lx).2.token_start = lx.pos + w.length ∧
    (scan_ternary_qmark W lx).2.token_end = some (lx.pos + w.length + 1) ∧
    (scan_ternary_qmark W lx).2.pos = lx.pos + w.length + 2 ∧
    (scan_ternary_qmark W lx).2.rest = d :: rest := by
  rw [scan_ternary_qmark_dot W w (d :: rest) lx hw (by simpa using hrest)]
  refine ⟨by simpa using hd, rfl, ?_, rfl, rfl, rfl⟩
  by_cases h : w = [] <;> simp [h, hstart]

/-- Witness of C2: the input ` ?.5`. -/
theorem scan_ternary_qmark_dot_digit_witness :
    (scan_ternary_qmark cLocale (TSLexer.start 0 [32, 63, 46, 53])).1 = true ∧
    (scan_ternary_qmark cLocale (TSLexer.start 0 [32, 63, 46, 53])).2.result_symbol
      = TERNARY_QMARK ∧
    (scan_ternary_qmark cLocale (TSLexer.start 0 [32, 63, 46, 53])).2.token_start = 1 ∧
    (scan_ternary_qmark cLocale (TSLexer.start 0 [32, 63, 46, 53])).2.token_end = some 2 ∧
    (scan_ternary_qmark cLocale (TSLexer.start 0 [32, 63, 46, 53])).2.pos = 3 ∧
    (scan_ternary_qmark cLocale (TSLexer.start 0 [32, 63, 46, 53])).2.rest = [53] :=
  scan_ternary_qmark_dot_digit cLocale (TSLexer.start 0 [32, 63, 46, 53]) [32] 53 []
    (by decide) (by decide) rfl rfl

/-- Counterexample to C2 as stated: on the input `?.5` the call does not return
false. -/
theorem scan_ternary_qmark_dot_digit_counterexample :
    ¬ (scan_ternary_qmark cLocale (TSLexer.start 0 [63, 46, 53])).1 = false := by
  rw [scan_ternary_qmark_dot cLocale [] [53] (TSLexer.start 0 [63, 46, 53])
    (by simp) rfl]
  decide

/-- C3, as the code behaves: on white space, a question mark, a dot and then a
character that is not a decimal digit (or the end of the input), `scan_ternary_qmark`
returns false. The dot is advanced over, and the end that was marked is the one after
the question mark: the dot is not inside it. -/
theorem scan_ternary_qmark_dot_other (W : WCType) (lx : TSLexer) (w r : List Nat)
    (hw : ∀ c ∈ w, W.iswspace c = true)
    (hc : ∀ c ∈ r.head?, iswdigit c = false)
    (hrest : lx.rest = w ++ [63] ++ [46] ++ r) :
    (scan_ternary_qmark W lx).1 = false ∧
    (scan_ternary_qmark W lx).2.token_end = some (lx.pos + w.length + 1) ∧
    (scan_ternary_qmark W lx).2.pos = lx.pos + w.length + 2 ∧
    (scan_ternary_qmark W lx).2.rest = r := by
  rw [scan_ternary_qmark_dot W w r lx hw (by simpa using hrest)]
  refine ⟨?_, rfl, rfl, rfl⟩
  cases r with
  | nil => rfl
  | cons c r => simpa using hc c (by simp)

/-- Witness of C3: the input ` ?.x`. -/
theorem scan_ternary_qmark_dot_other_witness :
    (scan_ternary_qmark cLocale (TSLexer.start 0 [32, 63, 46, 120])).1 = false ∧
    (scan_ternary_qmark cLocale (TSLexer.start 0 [32, 63, 46, 120])).2.token_end
      = some 2 ∧
    (scan_ternary_qmark cLocale (TSLexer.start 0 [32, 63, 46, 120])).2.pos = 3 ∧
    (scan_ternary_qmark cLocale (TSLexer.start 0 [32, 63, 46, 120])).2.rest = [120] :=
  scan_ternary_qmark_dot_other cLocale (TSLexer.start 0 [32, 63, 46, 120]) [32] [120]
    (by decide) (by decide) rfl

/-- Counterexample to C3 as stated: on the input `?.x` the call does not return true. -/
theorem scan_ternary_qmark_dot_other_counterexample :
    ¬ (scan_ternary_qmark cLocale (TSLexer.start 0 [63, 46, 120])).1 = true := by
  rw [scan_ternary_qmark_dot cLocale [] [120] (TSLexer.start 0 [63, 46, 120])
    (by simp) rfl]
  decide

/-- C4: on white space, a question mark and then a character that is neither a
question mark nor a dot (or the end of the input), `scan_ternary_qmark` returns true
with the kind `TERNARY_QMARK`. The committed token is the question mark alone: it
starts after the white space, which was consumed with `skip`, and its end is marked
right after the question mark, where the cursor stops. The lexer is one whose token
starts at the cursor, as the host hands it over. -/
theorem scan_ternary_qmark_plain (W : WCType) (lx : TSLexer) (w r : List Nat)
    (hw : ∀ c ∈ w, W.iswspace c = true)
    (hc : ∀ c ∈ r.head?, c ≠ 63 ∧ c ≠ 46)
    (hstart : lx.token_start = lx.pos)
    (hrest : lx.rest = w ++ [63] ++ r) :
    (scan_ternary_qmark W lx).1 = true ∧
    (scan_ternary_qmark W lx).2.result_symbol = TERNARY_QMARK ∧
    (scan_ternary_qmark W lx).2.token_start = lx.pos + w.length ∧
    (scan_ternary_qmark W lx).2.token_end = some (lx.pos + w.length + 1) ∧
    (scan_ternary_qmark W lx).2.pos = lx.pos + w.length + 1 ∧
    (scan_ternary_qmark W lx).2.rest = r ∧
    (scan_ternary_qmark W lx).2.trace =
      [LexerCall.result_symbol TERNARY_QMARK, LexerCall.mark_end,
        LexerCall.advance false] ++
        List.replicate w.length (LexerCall.advance true) ++ lx.trace := by
  rw [scan_ternary_qmark_single W w r lx hw (by simpa using hrest) hc]
  refine ⟨rfl, rfl, ?_, rfl, rfl, rfl, rfl⟩
  by_cases h : w = [] <;> simp [h, hstart]

/-- Witness of C4: the input ` ?x`. -/
theorem scan_ternary_qmark_plain_witness :
    (scan_ternary_qmark cLocale (TSLexer.start 0 [32, 63, 120])).1 = true ∧
    (scan_ternary_qmark cLocale (TSLexer.start 0 [32, 63, 120])).2.result_symbol
      = TERNARY_QMARK ∧
    (scan_ternary_qmark cLocale (TSLexer.start 0 [32, 63, 120])).2.token_start = 1 ∧
    (scan_ternary_qmark cLocale (TSLexer.start 0 [32, 63, 120])).2.token_end = some 2 ∧
    (scan_ternary_qmark cLocale (TSLexer.start 0 [32, 63, 120])).2.pos = 2 ∧
    (scan_ternary_qmark cLocale (TSLexer.start 0 [32, 63, 120])).2.rest = [120] ∧
    (scan_ternary_qmark cLocale (TSLexer.start 0 [32, 63, 120])).2.trace =
      [LexerCall.result_symbol TERNARY_QMARK, LexerCall.mark_end,
        LexerCall.advance false, LexerCall.advance true] :=
  scan_ternary_qmark_plain cLocale (TSLexer.start 0 [32, 63, 120]) [32] [120]
    (by decide) (by decide) rfl rfl

/-- C5: `scan_ternary_qmark` returns false when the first character after the white
space is not a question mark (also when the input is empty or white space only) and
when the white space is followed by two question marks. On these inputs the only calls
it makes on the lexer are `advance` and `skip`: `mark_end` is not called and the kind
is not written, so the marked end and the kind are those of the state it was given. -/
theorem scan_ternary_qmark_declines (W : WCType) (lx : TSLexer) (w r : List Nat)
    (hw : ∀ c ∈ w, W.iswspace c = true)
    (hr : (∀ c ∈ r.head?, W.iswspace c = false ∧ c ≠ 63) ∨ [63, 63] <+: r)
    (hrest : lx.rest = w ++ r) :
    (scan_ternary_qmark W lx).1 = false ∧
    (scan_ternary_qmark W lx).2.token_end = lx.token_end ∧
    (scan_ternary_qmark W lx).2.result_symbol = lx.result_symbol ∧
    ∃ calls, (scan_ternary_qmark W lx).2.trace = calls ++ lx.trace ∧
      ∀ c ∈ calls, c = LexerCall.advance true ∨ c = LexerCall.advance false := by
  rcases hr with hr | ⟨t, ht⟩
  · rw [scan_ternary_qmark_other W w r lx hw hrest hr]
    refine ⟨rfl, rfl, rfl, List.replicate w.length (LexerCall.advance true), rfl, ?_⟩
    intro c hc
    exact Or.inl (List.eq_of_mem_replicate hc)
  · subst ht
    rw [scan_ternary_qmark_double W w t lx hw (by simpa using hrest)]
    refine ⟨rfl, rfl, rfl,
      LexerCall.advance false :: List.replicate w.length (LexerCall.advance true), rfl, ?_⟩
    intro c hc
    rcases List.mem_cons.mp hc with h | h
    · exact Or.inr h
    · exact Or.inl (List.eq_of_mem_replicate h)

/-- Witness of C5: the input ` ??x`. -/
theorem scan_ternary_qmark_declines_witness :
    (scan_ternary_qmark cLocale (TSLexer.start 0 [32, 63, 63, 120])).1 = false ∧
    (scan_ternary_qmark cLocale (TSLexer.start 0 [32, 63, 63, 120])).2.token_end
      = (TSLexer.start 0 [32, 63, 63, 120]).token_end ∧
    (scan_ternary_qmark cLocale (TSLexer.start 0 [32, 63, 63, 120])).2.result_symbol
      = (TSLexer.start 0 [32, 63, 63, 120]).result_symbol ∧
    ∃ calls, (scan_ternary_qmark cLocale (TSLexer.start 0 [32, 63, 63, 120])).2.trace
        = calls ++ (TSLexer.start 0 [32, 63, 63, 120]).trace ∧
      ∀ c ∈ calls, c = LexerCall.advance true ∨ c = LexerCall.advance false :=
  scan_ternary_qmark_declines cLocale (TSLexer.start 0 [32, 63, 63, 120]) [32]
    [63, 63, 120] (by decide) (Or.inr ⟨[120], rfl⟩) rfl

/-! ## The template-content routine -/

/-- C6: on content `c` without backtick, backslash, NUL or a dollar followed by an
opening brace, followed by `s`, which is a backtick, a backslash, or a dollar and an
opening brace, `scan_template_chars` returns true exactly when `c` is not empty. The
kind is `TEMPLATE_CHARS` and the marked end is right after `c` (in every case, and so
when the call returns true); the start of the token is not moved. -/
theorem scan_template_chars_content (lx : TSLexer) (c s rest : List Nat)
    (hc : ∀ x ∈ c, x ≠ 96 ∧ x ≠ 92 ∧ x ≠ 0) (hd : ¬ [36, 123] <:+: c)
    (hs : s = [96] ∨ s = [92] ∨ s = [36, 123])
    (hrest : lx.rest = c ++ s ++ rest) :
    ((scan_template_chars lx).1 = true ↔ c ≠ []) ∧
    (scan_template_chars lx).2.result_symbol = TEMPLATE_CHARS ∧
    (scan_template_chars lx).2.token_end = some (lx.pos + c.length) ∧
    (scan_template_chars lx).2.token_start = lx.token_start := by
  obtain ⟨h1, h2, h3, h4⟩ := scan_template_chars_delim lx c s rest hc hd hs hrest
  refine ⟨?_, h2, h3, h4⟩
  rw [h1]
  cases c <;> simp

/-- Witness of C6: the input `abc` followed by a dollar and an opening brace. -/
theorem scan_template_chars_content_witness :
    ((scan_template_chars (TSLexer.start 0 [97, 98, 99, 36, 123])).1 = true
      ↔ [97, 98, 99] ≠ []) ∧
    (scan_template_chars (TSLexer.start 0 [97, 98, 99, 36, 123])).2.result_symbol
      = TEMPLATE_CHARS ∧
    (scan_template_chars (TSLexer.start 0 [97, 98, 99, 36, 123])).2.token_end = some 3 ∧
    (scan_template_chars (TSLexer.start 0 [97, 98, 99, 36, 123])).2.token_start = 0 :=
  scan_template_chars_content (TSLexer.start 0 [97, 98, 99, 36, 123]) [97, 98, 99]
    [36, 123] [] (by decide) (by decide) (Or.inr (Or.inr rfl)) rfl

/-- C7, as the code behaves: when the content runs to the end of the input, without
backtick, backslash, NUL or a dollar followed by an opening brace,
`scan_template_chars` returns false, whether the content is empty or not; the end it
has marked is the end of the input. -/
theorem scan_template_chars_end_of_input (lx : TSLexer)
    (hc : ∀ x ∈ lx.rest, x ≠ 96 ∧ x ≠ 92 ∧ x ≠ 0) (hd : ¬ [36, 123] <:+: lx.rest) :
    (scan_template_chars lx).1 = false ∧
    (scan_template_chars lx).2.token_end = some (lx.pos + lx.rest.length) ∧
    (scan_template_chars lx).2.rest = [] := by
  obtain ⟨h1, _, h3, h4⟩ := scan_template_chars_eof lx hc hd
  exact ⟨h1, h3, h4⟩

/-- Witness of C7: the input `abc`. -/
theorem scan_template_chars_end_of_input_witness :
    (scan_template_chars (TSLexer.start 0 [97, 98, 99])).1 = false ∧
    (scan_template_chars (TSLexer.start 0 [97, 98, 99])).2.token_end = some 3 ∧
    (scan_template_chars (TSLexer.start 0 [97, 98, 99])).2.rest = [] :=
  scan_template_chars_end_of_input (TSLexer.start 0 [97, 98, 99]) (by decide) (by decide)

/-- Counterexample to C7 as stated: on the non-empty input `a`, free of backtick,
backslash, NUL and interpolation opener, the call does not return true. -/
theorem scan_template_chars_end_of_input_counterexample :
    ¬ (scan_template_chars (TSLexer.start 0 [97])).1 = true := by
  rw [(scan_template_chars_eof (TSLexer.start 0 [97]) (by decide) (by decide)).1]
  decide

/-- C8: when `scan_template_chars` returns true, the committed span, from the start
of the call to the marked end, is a non-empty stretch of `n` characters of the input
that holds no backtick, no backslash, and no dollar that an opening brace follows in
the input. -/
theorem scan_template_chars_span (lx : TSLexer)
    (h : (scan_template_chars lx).1 = true) :
    ∃ n, (scan_template_chars lx).2.token_end = some (lx.pos + n) ∧
      (scan_template_chars lx).2.token_start = lx.token_start ∧
      0 < n ∧ n ≤ lx.rest.length ∧
      96 ∉ lx.rest.take n ∧ 92 ∉ lx.rest.take n ∧
      ∀ i, i < n → lx.rest[i]? = some 36 → lx.rest[i + 1]? ≠ some 123 := by
  obtain ⟨n, h1, h2, _, h4, h5, h6⟩ := scan_template_chars_loop_span lx.rest false
    (lx.set_result_symbol TEMPLATE_CHARS) rfl h
  have key : ∀ y, y ∈ lx.rest.take n → y ≠ 96 ∧ y ≠ 92 := by
    intro y hy
    obtain ⟨i, hi⟩ := List.getElem?_of_mem hy
    have hlt : i < n := by
      have := (List.getElem?_eq_some_iff.mp hi).1
      simp at this
      omega
    have hi2 : lx.rest[i]? = some y := by
      rw [List.getElem?_take_of_lt hlt] at hi
      exact hi
    have := h6 i hlt y hi2
    exact ⟨this.1, this.2.1⟩
  refine ⟨n, h1, h2, h4 rfl, h5, ?_, ?_, ?_⟩
  · intro hmem
    exact (key 96 hmem).1 rfl
  · intro hmem
    exact (key 92 hmem).2 rfl
  · intro i hi h36
    exact (h6 i hi 36 h36).2.2.2 rfl

/-- Witness of C8: the input `a$b` followed by a backtick. -/
theorem scan_template_chars_span_witness :
    ∃ n, (scan_template_chars (TSLexer.start 0 [97, 36, 98, 96])).2.token_end
        = some ((TSLexer.start 0 [97, 36, 98, 96]).pos + n) ∧
      (scan_template_chars (TSLexer.start 0 [97, 36, 98, 96])).2.token_start
        = (TSLexer.start 0 [97, 36, 98, 96]).token_start ∧
      0 < n ∧ n ≤ (TSLexer.start 0 [97, 36, 98, 96]).rest.length ∧
      96 ∉ (TSLexer.start 0 [97, 36, 98, 96]).rest.take n ∧
      92 ∉ (TSLexer.start 0 [97, 36, 98, 96]).rest.take n ∧
      ∀ i, i < n → (TSLexer.start 0 [97, 36, 98, 96]).rest[i]? = some 36 →
        (TSLexer.start 0 [97, 36, 98, 96]).rest[i + 1]? ≠ some 123 :=
  scan_template_chars_span (TSLexer.start 0 [97, 36, 98, 96])
    (scan_template_chars_delim (TSLexer.start 0 [97, 36, 98, 96]) [97, 36, 98] [96] []
      (by decide) (by decide) (Or.inl rfl) rfl).1

/-! ## The legacy-markup comment routine -/

/-- C9, as the code behaves: let the input be the run `w` of white space, U+2028 and
U+2029 followed by `r`, which does not start with such a character. Then
`scan_html_comment` returns true exactly when `r` starts with the four characters of
the opener or the three of the closer. When it does, the kind is `HTML_COMMENT`, the
token starts after `w`, and the committed span is `body`, the characters of `r` up to
and excluding the first line feed, U+2028, U+2029 or NUL, or up to the end of the input
when there is none. The lexer is one whose token starts at the cursor, as the host
hands it over. -/
theorem scan_html_comment_line (W : WCType) (lx : TSLexer) (w r : List Nat)
    (hw : ∀ c ∈ w, W.iswspace c = true ∨ c = 0x2028 ∨ c = 0x2029)
    (hr : ∀ c ∈ r.head?, W.iswspace c = false ∧ c ≠ 0x2028 ∧ c ≠ 0x2029)
    (hstart : lx.token_start = lx.pos)
    (hrest : lx.rest = w ++ r) :
    ((scan_html_comment W lx).1 = true ↔ (comment_start <+: r ∨ comment_end <+: r)) ∧
    ((scan_html_comment W lx).1 = true →
      (scan_html_comment W lx).2.result_symbol = HTML_COMMENT ∧
      (scan_html_comment W lx).2.token_start = lx.pos + w.length ∧
      ∃ body t, r = body ++ t ∧
        (∀ c ∈ body, c ≠ 0 ∧ c ≠ 10 ∧ c ≠ 0x2028 ∧ c ≠ 0x2029) ∧
        (∀ c ∈ t.head?, c = 0 ∨ c = 10 ∨ c = 0x2028 ∨ c = 0x2029) ∧
        (scan_html_comment W lx).2.token_end = some (lx.pos + w.length + body.length) ∧
        (scan_html_comment W lx).2.rest = t) := by
  have hw1 : ∀ c ∈ w, html_space W c = true := by
    intro c hc
    simpa [html_space, or_assoc] using hw c hc
  have hr1 : ∀ c ∈ r.head?, html_space W c = false := by
    intro c hc
    simpa [html_space, and_assoc] using hr c hc
  -- what the call does once the opener or the closer is known to be there
  have hmatch : (comment_start <+: r ∨ comment_end <+: r) →
      (scan_html_comment W lx).1 = true ∧
      (scan_html_comment W lx).2.result_symbol = HTML_COMMENT ∧
      (scan_html_comment W lx).2.token_start = lx.pos + w.length ∧
      ∃ body t, r = body ++ t ∧
        (∀ c ∈ body, c ≠ 0 ∧ c ≠ 10 ∧ c ≠ 0x2028 ∧ c ≠ 0x2029) ∧
        (∀ c ∈ t.head?, c = 0 ∨ c = 10 ∨ c = 0x2028 ∨ c = 0x2029) ∧
        (scan_html_comment W lx).2.token_end = some (lx.pos + w.length + body.length) ∧
        (scan_html_comment W lx).2.rest = t := by
    intro hp
    have hm : ∃ m r2, (m = comment_start ∨ m = comment_end) ∧ r = m ++ r2 := by
      rcases hp with ⟨r2, h2⟩ | ⟨r2, h2⟩
      · exact ⟨comment_start, r2, Or.inl rfl, h2.symm⟩
      · exact ⟨comment_end, r2, Or.inr rfl, h2.symm⟩
    obtain ⟨m, r2, hm, hr2⟩ := hm
    obtain ⟨b, t, hbt, hb, ht⟩ := not_line_end_split r2
    have hml : ∀ c ∈ m, not_line_end c = true := by
      rcases hm with h | h <;> subst h <;> decide
    rw [scan_html_comment_match W w m b t lx hw1 hm hb ht (by rw [hrest, hr2, hbt])]
    refine ⟨rfl, rfl, ?_, m ++ b, t, by rw [hr2, hbt, List.append_assoc], ?_, ?_, ?_, rfl⟩
    · by_cases h : w = [] <;> simp [h, hstart]
    · intro c hc
      have : not_line_end c = true := by
        rcases List.mem_append.mp hc with h | h
        · exact hml c h
        · exact hb c h
      simpa [not_line_end, and_assoc] using this
    · intro c hc
      have hnl : not_line_end c = false := by
        cases t with
        | nil => simp at hc
        | cons a t =>
          have hca : a = c := by simpa using hc
          rw [← hca]
          simpa using ht
      simp [not_line_end] at hnl
      by_cases h0 : c = 0
      · exact Or.inl h0
      · by_cases h1 : c = 10
        · exact Or.inr (Or.inl h1)
        · by_cases h2 : c = 8232
          · exact Or.inr (Or.inr (Or.inl h2))
          · exact Or.inr (Or.inr (Or.inr (hnl h0 h1 h2)))
    · simp [Nat.add_comm m.length]
  refine ⟨⟨fun h => scan_html_comment_true W w r lx hw1 hr1 hrest h,
    fun hp => (hmatch hp).1⟩, ?_⟩
  intro h
  exact (hmatch (scan_html_comment_true W w r lx hw1 hr1 hrest h)).2

/-- Witness of C9: the input of a space, the opener, ` note` and a line feed. -/
theorem scan_html_comment_line_witness :
    ((scan_html_comment cLocale
        (TSLexer.start 0 [32, 60, 33, 45, 45, 32, 110, 111, 116, 101, 10])).1 = true ↔
      (comment_start <+: [60, 33, 45, 45, 32, 110, 111, 116, 101, 10] ∨
        comment_end <+: [60, 33, 45, 45, 32, 110, 111, 116, 101, 10])) ∧
    ((scan_html_comment cLocale
        (TSLexer.start 0 [32, 60, 33, 45, 45, 32, 110, 111, 116, 101, 10])).1 = true →
      (scan_html_comment cLocale
        (TSLexer.start 0 [32, 60, 33, 45, 45, 32, 110, 111, 116, 101, 10])).2.result_symbol
        = HTML_COMMENT ∧
      (scan_html_comment cLocale
        (TSLexer.start 0 [32, 60, 33, 45, 45, 32, 110, 111, 116, 101, 10])).2.token_start
        = (TSLexer.start 0 [32, 60, 33, 45, 45, 32, 110, 111, 116, 101, 10]).pos
          + [32].length ∧
      ∃ body t, [60, 33, 45, 45, 32, 110, 111, 116, 101, 10] = body ++ t ∧
        (∀ c ∈ body, c ≠ 0 ∧ c ≠ 10 ∧ c ≠ 0x2028 ∧ c ≠ 0x2029) ∧
        (∀ c ∈ t.head?, c = 0 ∨ c = 10 ∨ c = 0x2028 ∨ c = 0x2029) ∧
        (scan_html_comment cLocale
          (TSLexer.start 0 [32, 60, 33, 45, 45, 32, 110, 111, 116, 101, 10])).2.token_end
          = some ((TSLexer.start 0 [32, 60, 33, 45, 45, 32, 110, 111, 116, 101, 10]).pos
            + [32].length + body.length) ∧
        (scan_html_comment cLocale
          (TSLexer.start 0 [32, 60, 33, 45, 45, 32, 110, 111, 116, 101, 10])).2.rest = t) :=
  scan_html_comment_line cLocale
    (TSLexer.start 0 [32, 60, 33, 45, 45, 32, 110, 111, 116, 101, 10]) [32]
    [60, 33, 45, 45, 32, 110, 111, 116, 101, 10] (by decide) (by decide) rfl rfl

/-- Counterexample to C9 as stated: the input is the opener, `a`, a NUL, `b` and a
line feed, which stands at offset 7. The call returns true, and the end it has marked
is not the offset of the line feed: the span stops at the NUL, at offset 5. -/
theorem scan_html_comment_line_counterexample :
    ¬ ((scan_html_comment cLocale (TSLexer.start 0 [60, 33, 45, 45, 97, 0, 98, 10])).1
        = true →
      (scan_html_comment cLocale
        (TSLexer.start 0 [60, 33, 45, 45, 97, 0, 98, 10])).2.token_end = some 7) := by
  rw [scan_html_comment_match cLocale [] comment_start [97] [0, 98, 10]
    (TSLexer.start 0 [60, 33, 45, 45, 97, 0, 98, 10]) (by simp) (Or.inl rfl) (by decide)
    (by decide) rfl]
  decide

/-! ## The guard of the dispatcher -/

/-- C10: when neither `TEMPLATE_CHARS` nor `TERNARY_QMARK` is admissible, and either
`HTML_COMMENT` is not admissible or one of `LOGICAL_OR`, `ESCAPE_SEQUENCE`,
`REGEX_PATTERN` is, the dispatcher returns false and hands back the lexer as it was
given: the same input and cursor, the same marked end and kind, and no call added to
the trace. -/
theorem scan_guard_untouched (W : WCType) (payload : Nat) (lx : TSLexer) (v : Nat → Bool)
    (h0 : v TEMPLATE_CHARS = false) (h1 : v TERNARY_QMARK = false)
    (h : v HTML_COMMENT = false ∨ v LOGICAL_OR = true ∨ v ESCAPE_SEQUENCE = true ∨
      v REGEX_PATTERN = true) :
    (tree_sitter_tsz_external_scanner_scan W payload lx v).1 = false ∧
    (tree_sitter_tsz_external_scanner_scan W payload lx v).2 = lx ∧
    (tree_sitter_tsz_external_scanner_scan W payload lx v).2.trace = lx.trace := by
  have key : tree_sitter_tsz_external_scanner_scan W payload lx v = (false, lx) := by
    rcases h with h | h | h | h <;>
      simp [tree_sitter_tsz_external_scanner_scan, h0, h1, h]
  rw [key]
  exact ⟨rfl, rfl, rfl⟩

/-- Witness of C10: `HTML_COMMENT` and `LOGICAL_OR` admissible, on an input that starts
with the opener of a comment. -/
theorem scan_guard_untouched_witness :
    (tree_sitter_tsz_external_scanner_scan cLocale 0
      (TSLexer.start 0 [60, 33, 45, 45, 120]) (fun k => k == 2 || k == 3)).1 = false ∧
    (tree_sitter_tsz_external_scanner_scan cLocale 0
      (TSLexer.start 0 [60, 33, 45, 45, 120]) (fun k => k == 2 || k == 3)).2
      = TSLexer.start 0 [60, 33, 45, 45, 120] ∧
    (tree_sitter_tsz_external_scanner_scan cLocale 0
      (TSLexer.start 0 [60, 33, 45, 45, 120]) (fun k => k == 2 || k == 3)).2.trace
      = (TSLexer.start 0 [60, 33, 45, 45, 120]).trace :=
  scan_guard_untouched cLocale 0 (TSLexer.start 0 [60, 33, 45, 45, 120])
    (fun k => k == 2 || k == 3) rfl rfl (Or.inr (Or.inl rfl))

/-! ## The white-space and comment routine: the claims -/

/-- C13, as the code behaves: when `scan_whitespace_and_comments` answers `NO_NEWLINE`,
the mode is peek, a comment was seen, and the text `pre` that the call has skipped is
made of white-space characters, line comments and block comments of which no block
comment holds a line terminator. Line terminators skipped as white space are allowed:
they do not turn the answer into `ACCEPT`. -/
theorem scan_whitespace_no_newline_blocks (W : WCType) (lx : TSLexer) (sc consume : Bool)
    (h : (scan_whitespace_and_comments W lx sc consume).1 = WhitespaceResult.NO_NEWLINE) :
    consume = false ∧
    (scan_whitespace_and_comments W lx sc consume).2.1 = true ∧
    ∃ pre post, lx.rest = pre ++ post ∧
      (scan_whitespace_and_comments W lx sc consume).2.2.rest = post ∧
      (scan_whitespace_and_comments W lx sc consume).2.2.pos = lx.pos + pre.length ∧
      BlockNewlineFree W pre := by
  obtain ⟨pre, post, h1, h2, h3, _, _⟩ :=
    swc_loop_general W consume (lx.rest.length + 1) sc false lx (Nat.lt_succ_self _)
  obtain ⟨e1, _, e3, e4⟩ := h3 h
  refine ⟨e1, e3, pre, post, h1, ?_, ?_, e4⟩
  · rw [scan_whitespace_and_comments, h2, TSLexer.skipN_rest pre post lx h1]
  · rw [scan_whitespace_and_comments, h2, TSLexer.skipN_pos pre post lx h1]

/-- Witness of C13: a line feed, an empty block comment and `x`, in peek mode. -/
theorem scan_whitespace_no_newline_blocks_witness :
    false = false ∧
    (scan_whitespace_and_comments cLocale (TSLexer.start 0 [10, 47, 42, 42, 47, 120])
      false false).2.1 = true ∧
    ∃ pre post, (TSLexer.start 0 [10, 47, 42, 42, 47, 120]).rest = pre ++ post ∧
      (scan_whitespace_and_comments cLocale (TSLexer.start 0 [10, 47, 42, 42, 47, 120])
        false false).2.2.rest = post ∧
      (scan_whitespace_and_comments cLocale (TSLexer.start 0 [10, 47, 42, 42, 47, 120])
        false false).2.2.pos = (TSLexer.start 0 [10, 47, 42, 42, 47, 120]).pos + pre.length ∧
      BlockNewlineFree cLocale pre :=
  scan_whitespace_no_newline_blocks cLocale (TSLexer.start 0 [10, 47, 42, 42, 47, 120])
    false false
    (by
      rw [scan_whitespace_and_comments,
        swc_loop_block_return cLocale false false [10] [] [120]
          (TSLexer.start 0 [10, 47, 42, 42, 47, 120]) (by decide) (by simp) (by simp)
          (by decide) rfl]
      rfl)

/-- Counterexample to C13 as stated: on a line feed, an empty block comment and `x`, in
peek mode, the answer is `NO_NEWLINE` although the first of the characters that the call
has consumed is a line feed. -/
theorem scan_whitespace_no_newline_blocks_counterexample :
    ¬ ((scan_whitespace_and_comments cLocale (TSLexer.start 0 [10, 47, 42, 42, 47, 120])
        false false).1 = WhitespaceResult.NO_NEWLINE →
      ∀ x ∈ List.take
        ((scan_whitespace_and_comments cLocale (TSLexer.start 0 [10, 47, 42, 42, 47, 120])
          false false).2.2.pos) [10, 47, 42, 42, 47, 120],
        is_line_terminator x = false) := by
  have hres : scan_whitespace_and_comments cLocale
      (TSLexer.start 0 [10, 47, 42, 42, 47, 120]) false false
      = (WhitespaceResult.NO_NEWLINE, true,
          (TSLexer.start 0 [10, 47, 42, 42, 47, 120]).skipN 5) := by
    rw [scan_whitespace_and_comments,
      swc_loop_block_return cLocale false false [10] [] [120]
        (TSLexer.start 0 [10, 47, 42, 42, 47, 120]) (by decide) (by simp) (by simp)
        (by decide) rfl]
    rfl
  have hpos : ((TSLexer.start 0 [10, 47, 42, 42, 47, 120]).skipN 5).pos = 5 := by
    have := TSLexer.skipN_pos [10, 47, 42, 42, 47] [120]
      (TSLexer.start 0 [10, 47, 42, 42, 47, 120]) rfl
    simpa [TSLexer.start] using this
  rw [hres]
  intro h
  have h1 := h rfl 10 (by rw [hpos]; decide)
  revert h1
  decide

/-- C14, as the code behaves: in peek mode, on white space, a block comment whose body
holds no closer, no line terminator and no NUL, and then a character that is not a
slash (or the end of the input), `scan_whitespace_and_comments` answers `NO_NEWLINE`,
sets `*scanned_comment`, and stops with the cursor right after the closer. -/
theorem scan_whitespace_peek_block (W : WCType) (lx : TSLexer) (sc : Bool)
    (w body r : List Nat)
    (hw : ∀ c ∈ w, W.iswspace c = true)
    (hb : ∀ x ∈ body, x ≠ 0 ∧ is_line_terminator x = false)
    (hd : ¬ [42, 47] <:+: body)
    (hc : ∀ c ∈ r.head?, c ≠ 47)
    (hrest : lx.rest = w ++ [47, 42] ++ body ++ [42, 47] ++ r) :
    (scan_whitespace_and_comments W lx sc false).1 = WhitespaceResult.NO_NEWLINE ∧
    (scan_whitespace_and_comments W lx sc false).2.1 = true ∧
    (scan_whitespace_and_comments W lx sc false).2.2.pos
      = lx.pos + (w.length + 2 + body.length + 2) ∧
    (scan_whitespace_and_comments W lx sc false).2.2.rest = r := by
  have hrest1 : lx.rest = w ++ 47 :: 42 :: (body ++ 42 :: 47 :: r) := by simpa using hrest
  have hr : r.headD 0 ≠ 47 := by
    cases r with
    | nil => simp
    | cons a r => simpa using hc a (by simp)
  have hany : body.any is_line_terminator = false := by
    simp only [List.any_eq_false]
    intro x hx
    simpa using (hb x hx).2
  have hrest2 : lx.rest = (w ++ 47 :: 42 :: (body ++ [42, 47])) ++ r := by
    simpa using hrest
  have hlen : (w ++ 47 :: 42 :: (body ++ [42, 47])).length
      = w.length + 2 + (body.length + 2) := by
    simp
    omega
  rw [scan_whitespace_and_comments,
    swc_loop_block_return W sc false w body r lx hw (fun x hx => (hb x hx).1) hd hr hrest1,
    hany, ← hlen]
  refine ⟨by simp, rfl, ?_, ?_⟩
  · rw [TSLexer.skipN_pos _ r lx hrest2, hlen]
    omega
  · rw [TSLexer.skipN_rest _ r lx hrest2]

/-- Witness of C14: a space, the comment with the body ` no nl `, and `x`. -/
theorem scan_whitespace_peek_block_witness :
    (scan_whitespace_and_comments cLocale
      (TSLexer.start 0 [32, 47, 42, 32, 110, 111, 32, 110, 108, 32, 42, 47, 120])
      false false).1 = WhitespaceResult.NO_NEWLINE ∧
    (scan_whitespace_and_comments cLocale
      (TSLexer.start 0 [32, 47, 42, 32, 110, 111, 32, 110, 108, 32, 42, 47, 120])
      false false).2.1 = true ∧
    (scan_whitespace_and_comments cLocale
      (TSLexer.start 0 [32, 47, 42, 32, 110, 111, 32, 110, 108, 32, 42, 47, 120])
      false false).2.2.pos
      = (TSLexer.start 0 [32, 47, 42, 32, 110, 111, 32, 110, 108, 32, 42, 47, 120]).pos
        + ([32].length + 2 + [32, 110, 111, 32, 110, 108, 32].length + 2) ∧
    (scan_whitespace_and_comments cLocale
      (TSLexer.start 0 [32, 47, 42, 32, 110, 111, 32, 110, 108, 32, 42, 47, 120])
      false false).2.2.rest = [120] :=
  scan_whitespace_peek_block cLocale
    (TSLexer.start 0 [32, 47, 42, 32, 110, 111, 32, 110, 108, 32, 42, 47, 120]) false
    [32] [32, 110, 111, 32, 110, 108, 32] [120] (by decide) (by decide) (by decide)
    (by decide) rfl

/-- Counterexample to C14 as stated: the body of the comment is a NUL, which is neither
a closer nor a line terminator; the answer in peek mode is not `NO_NEWLINE`. -/
theorem scan_whitespace_peek_block_counterexample :
    ¬ (scan_whitespace_and_comments cLocale (TSLexer.start 0 [47, 42, 0, 42, 47, 120])
        false false).1 = WhitespaceResult.NO_NEWLINE := by
  rw [scan_whitespace_and_comments,
    swc_loop_block_open cLocale false false false [] [] [0, 42, 47, 120]
      (TSLexer.start 0 [47, 42, 0, 42, 47, 120]) (by simp) (by simp) (by simp) rfl rfl]
  decide

/-- C15, as the code behaves: in both modes, on white space, a block comment whose body
holds no closer and no NUL but a line terminator, and then a character that is neither
a slash nor white space (or the end of the input), `scan_whitespace_and_comments`
answers `ACCEPT` and sets `*scanned_comment`. -/
theorem scan_whitespace_block_newline (W : WCType) (lx : TSLexer) (sc consume : Bool)
    (w body r : List Nat)
    (hw : ∀ c ∈ w, W.iswspace c = true)
    (hb : ∀ x ∈ body, x ≠ 0)
    (hd : ¬ [42, 47] <:+: body)
    (hnl : ∃ x ∈ body, is_line_terminator x = true)
    (hc : ∀ c ∈ r.head?, c ≠ 47 ∧ W.iswspace c = false)
    (hrest : lx.rest = w ++ [47, 42] ++ body ++ [42, 47] ++ r) :
    (scan_whitespace_and_comments W lx sc consume).1 = WhitespaceResult.ACCEPT ∧
    (scan_whitespace_and_comments W lx sc consume).2.1 = true := by
  have hrest1 : lx.rest = w ++ 47 :: 42 :: (body ++ 42 :: 47 :: r) := by simpa using hrest
  have hr : r.headD 0 ≠ 47 := by
    cases r with
    | nil => simp
    | cons a r => simpa using (hc a (by simp)).1
  have hany : body.any is_line_terminator = true := by
    obtain ⟨x, hx, hlt⟩ := hnl
    exact List.any_eq_true.mpr ⟨x, hx, hlt⟩
  cases consume with
  | false =>
    rw [scan_whitespace_and_comments,
      swc_loop_block_return W sc false w body r lx hw hb hd hr hrest1, hany]
    simp
  | true =>
    have hrest2 : lx.rest = (w ++ 47 :: 42 :: (body ++ [42, 47])) ++ r := by
      simpa using hrest
    have hlen : (w ++ 47 :: 42 :: (body ++ [42, 47])).length
        = w.length + 2 + (body.length + 2) := by
      simp
      omega
    have hrest3 : (lx.skipN (w.length + 2 + (body.length + 2))).rest = [] ++ r := by
      rw [← hlen, TSLexer.skipN_rest _ r lx hrest2]
      rfl
    rw [scan_whitespace_and_comments,
      swc_loop_block_next W true sc false w body r lx hw hb hd (Or.inl rfl) hrest1,
      swc_loop_accept W true true _ [] r _ (by simp)
        (fun c h => ⟨(hc c h).2, (hc c h).1⟩) hrest3]
    exact ⟨rfl, rfl⟩

/-- Witness of C15: the comment whose body is a line feed, and `x`, in full-consume
mode. -/
theorem scan_whitespace_block_newline_witness :
    (scan_whitespace_and_comments cLocale (TSLexer.start 0 [47, 42, 10, 42, 47, 120])
      false true).1 = WhitespaceResult.ACCEPT ∧
    (scan_whitespace_and_comments cLocale (TSLexer.start 0 [47, 42, 10, 42, 47, 120])
      false true).2.1 = true :=
  scan_whitespace_block_newline cLocale (TSLexer.start 0 [47, 42, 10, 42, 47, 120])
    false true [] [10] [120] (by decide) (by decide) (by decide) ⟨10, by decide, by decide⟩
    (by decide) rfl

/-- Counterexample to C15 as stated: the body of the comment is a line feed and a NUL;
with `*scanned_comment` false before the call it is not true after it. -/
theorem scan_whitespace_block_newline_counterexample :
    ¬ ((scan_whitespace_and_comments cLocale
          (TSLexer.start 0 [47, 42, 10, 0, 42, 47, 120]) false false).1
        = WhitespaceResult.ACCEPT ∧
      (scan_whitespace_and_comments cLocale
          (TSLexer.start 0 [47, 42, 10, 0, 42, 47, 120]) false false).2.1 = true) := by
  rw [scan_whitespace_and_comments,
    swc_loop_block_open cLocale false false false [] [10] [0, 42, 47, 120]
      (TSLexer.start 0 [47, 42, 10, 0, 42, 47, 120]) (by simp) (by decide) (by decide)
      rfl rfl]
  decide

/-- C16: in both modes, on an input made of white space and line comments, followed by
the end of the input or by a character that is neither white space nor a slash,
`scan_whitespace_and_comments` answers `ACCEPT`; `*scanned_comment` is true after the
call when there is a line comment, and is left as it was when there is none. -/
theorem scan_whitespace_line_comments (W : WCType) (lx : TSLexer) (sc consume : Bool)
    (input : List Nat) (b : Bool)
    (h : LineCommentGap W input b) (hrest : lx.rest = input) :
    (scan_whitespace_and_comments W lx sc consume).1 = WhitespaceResult.ACCEPT ∧
    (scan_whitespace_and_comments W lx sc consume).2.1 = (sc || b) :=
  swc_loop_line_gap W input b h consume sc false lx hrest

/-- Witness of C16: two spaces, the line comment ` line` and a line feed. -/
theorem scan_whitespace_line_comments_witness :
    (scan_whitespace_and_comments cLocale
      (TSLexer.start 0 [32, 32, 47, 47, 32, 108, 105, 110, 101, 10]) false false).1
      = WhitespaceResult.ACCEPT ∧
    (scan_whitespace_and_comments cLocale
      (TSLexer.start 0 [32, 32, 47, 47, 32, 108, 105, 110, 101, 10]) false false).2.1
      = (false || true) :=
  scan_whitespace_line_comments cLocale
    (TSLexer.start 0 [32, 32, 47, 47, 32, 108, 105, 110, 101, 10]) false false
    [32, 32, 47, 47, 32, 108, 105, 110, 101, 10] true
    (LineCommentGap.space 32 _ true (by decide)
      (LineCommentGap.space 32 _ true (by decide)
        (LineCommentGap.line [32, 108, 105, 110, 101] [10] false (by decide) (by decide)
          (LineCommentGap.space 10 [] false (by decide)
            (LineCommentGap.done [] (by simp))))))
    rfl

/-- C17: in both modes, on white space, a slash and then a character that is neither a
slash nor a star (or the end of the input), `scan_whitespace_and_comments` answers
`REJECT` and leaves `*scanned_comment` as it was; the cursor stands after the slash. -/
theorem scan_whitespace_reject (W : WCType) (lx : TSLexer) (sc consume : Bool)
    (w r : List Nat)
    (hw : ∀ c ∈ w, W.iswspace c = true)
    (hc : ∀ c ∈ r.head?, c ≠ 47 ∧ c ≠ 42)
    (hrest : lx.rest = w ++ [47] ++ r) :
    (scan_whitespace_and_comments W lx sc consume).1 = WhitespaceResult.REJECT ∧
    (scan_whitespace_and_comments W lx sc consume).2.1 = sc ∧
    (scan_whitespace_and_comments W lx sc consume).2.2.rest = r := by
  rw [scan_whitespace_and_comments,
    swc_loop_reject W consume sc false w r lx hw hc (by simpa using hrest)]
  refine ⟨rfl, rfl, ?_⟩
  have := TSLexer.skipN_rest (w ++ [47]) r lx hrest
  simpa using this

/-- Witness of C17: a space, a slash and `x`. -/
theorem scan_whitespace_reject_witness :
    (scan_whitespace_and_comments cLocale (TSLexer.start 0 [32, 47, 120]) true false).1
      = WhitespaceResult.REJECT ∧
    (scan_whitespace_and_comments cLocale (TSLexer.start 0 [32, 47, 120]) true false).2.1
      = true ∧
    (scan_whitespace_and_comments cLocale (TSLexer.start 0 [32, 47, 120]) true
      false).2.2.rest = [120] :=
  scan_whitespace_reject cLocale (TSLexer.start 0 [32, 47, 120]) true false [32] [120]
    (by decide) (by decide) rfl

/-- C20: in full-consume mode `scan_whitespace_and_comments` never answers
`NO_NEWLINE`. It skips a stretch `pre` of the input and stops before `post`: the
answer is `REJECT` with `pre` ending in a slash that neither a slash nor a star follows,
or it is `ACCEPT` with `post` starting with a character that is neither a slash nor
white space (or being empty). On a block comment that is not closed up to the end of
the input the answer is `ACCEPT` and `*scanned_comment` is left as it was. -/
theorem scan_whitespace_full_consume (W : WCType) (lx : TSLexer) (sc : Bool) :
    (scan_whitespace_and_comments W lx sc true).1 ≠ WhitespaceResult.NO_NEWLINE ∧
    (∃ pre post, lx.rest = pre ++ post ∧
      (scan_whitespace_and_comments W lx sc true).2.2.rest = post ∧
      (scan_whitespace_and_comments W lx sc true).2.2.pos = lx.pos + pre.length ∧
      (((scan_whitespace_and_comments W lx sc true).1 = WhitespaceResult.REJECT ∧
          (∃ p, pre = p ++ [47]) ∧ post.headD 0 ≠ 47 ∧ post.headD 0 ≠ 42) ∨
        ((scan_whitespace_and_comments W lx sc true).1 = WhitespaceResult.ACCEPT ∧
          post.headD 0 ≠ 47 ∧ W.iswspace (post.headD 0) = false))) ∧
    (∀ w body : List Nat, (∀ c ∈ w, W.iswspace c = true) → ¬ [42, 47] <:+: body →
      lx.rest = w ++ [47, 42] ++ body →
      (scan_whitespace_and_comments W lx sc true).1 = WhitespaceResult.ACCEPT ∧
      (scan_whitespace_and_comments W lx sc true).2.1 = sc) := by
  obtain ⟨pre, post, h1, h2, h3, h4, h5⟩ :=
    swc_loop_general W true (lx.rest.length + 1) sc false lx (Nat.lt_succ_self _)
  have hno : (scan_whitespace_and_comments W lx sc true).1 ≠ WhitespaceResult.NO_NEWLINE := by
    intro h
    have := (h3 h).1
    cases this
  refine ⟨hno, ⟨pre, post, h1, ?_, ?_, ?_⟩, ?_⟩
  · rw [scan_whitespace_and_comments, h2, TSLexer.skipN_rest pre post lx h1]
  · rw [scan_whitespace_and_comments, h2, TSLexer.skipN_pos pre post lx h1]
  · cases hres : (scan_whitespace_and_comments W lx sc true).1 with
    | REJECT => exact Or.inl ⟨rfl, h4 hres⟩
    | NO_NEWLINE => exact absurd hres hno
    | ACCEPT => exact Or.inr ⟨rfl, (h5 hres).1, (h5 hres).2 rfl⟩
  · intro w body hw hd hrest
    obtain ⟨b1, b2, hb12, hb1, hb2⟩ := run_split (fun x => x != 0) body
    have hb1' : ∀ x ∈ b1, x ≠ 0 := by
      intro x hx
      simpa using hb1 x hx
    have hb2' : b2.headD 0 = 0 := by
      cases b2 with
      | nil => rfl
      | cons y b2 => simpa using hb2 y (by simp)
    have hd1 : ¬ [42, 47] <:+: b1 := by
      intro h
      apply hd
      rw [hb12]
      exact List.IsInfix.trans h (List.prefix_append b1 b2).isInfix
    rw [scan_whitespace_and_comments,
      swc_loop_block_open W true sc false w b1 b2 lx hw hb1' hd1 hb2'
        (by rw [hrest, hb12]; simp)]
    exact ⟨rfl, rfl⟩

/-- Witness of C20: a block comment that is not closed, ` a` after the opener. -/
theorem scan_whitespace_full_consume_witness :
    (scan_whitespace_and_comments cLocale (TSLexer.start 0 [47, 42, 32, 97]) false true).1
      = WhitespaceResult.ACCEPT ∧
    (scan_whitespace_and_comments cLocale (TSLexer.start 0 [47, 42, 32, 97]) false
      true).2.1 = false :=
  (scan_whitespace_full_consume cLocale (TSLexer.start 0 [47, 42, 32, 97]) false).2.2
    [] [32, 97] (by simp) (by decide) rfl

/-! ## The dispatcher: what a success means -/

/-- C11: when the dispatcher returns true, on a lexer whose token starts at the cursor,
`mark_end` is among the calls it has made, the committed token is not empty (its end is
after its start), the kind is `TEMPLATE_CHARS`, `TERNARY_QMARK` or `HTML_COMMENT`, and
that kind is admissible. -/
theorem scan_success_invariants (W : WCType) (payload : Nat) (lx : TSLexer)
    (v : Nat → Bool) (hstart : lx.token_start = lx.pos)
    (h : (tree_sitter_tsz_external_scanner_scan W payload lx v).1 = true) :
    (∃ calls, (tree_sitter_tsz_external_scanner_scan W payload lx v).2.trace
        = calls ++ lx.trace ∧ LexerCall.mark_end ∈ calls) ∧
    (∃ e, (tree_sitter_tsz_external_scanner_scan W payload lx v).2.token_end = some e ∧
      (tree_sitter_tsz_external_scanner_scan W payload lx v).2.token_start < e) ∧
    ((tree_sitter_tsz_external_scanner_scan W payload lx v).2.result_symbol = TEMPLATE_CHARS ∨
      (tree_sitter_tsz_external_scanner_scan W payload lx v).2.result_symbol = TERNARY_QMARK ∨
      (tree_sitter_tsz_external_scanner_scan W payload lx v).2.result_symbol = HTML_COMMENT) ∧
    v (tree_sitter_tsz_external_scanner_scan W payload lx v).2.result_symbol = true := by
  by_cases h0 : v TEMPLATE_CHARS = true
  · have heq : tree_sitter_tsz_external_scanner_scan W payload lx v
        = scan_template_chars lx := by
      simp [tree_sitter_tsz_external_scanner_scan, h0]
    rw [heq] at h ⊢
    obtain ⟨calls, c1, c2, _⟩ := scan_template_chars_trace lx
    obtain ⟨n, e1, e2, e3, e4, _⟩ := scan_template_chars_loop_span lx.rest false
      (lx.set_result_symbol TEMPLATE_CHARS) rfl h
    have e3' : (scan_template_chars lx).2.result_symbol = TEMPLATE_CHARS := e3
    refine ⟨⟨calls, c1, c2⟩, ⟨lx.pos + n, e1, ?_⟩, Or.inl e3', ?_⟩
    · have : (scan_template_chars lx).2.token_start = lx.token_start := e2
      rw [this, hstart]
      have := e4 rfl
      omega
    · rw [e3']
      exact h0
  by_cases h1 : v TERNARY_QMARK = true
  · have heq : tree_sitter_tsz_external_scanner_scan W payload lx v
        = scan_ternary_qmark W lx := by
      simp [tree_sitter_tsz_external_scanner_scan, h0, h1]
    rw [heq] at h ⊢
    obtain ⟨w, r, calls, _, _, c1, _, _, c2, c3⟩ := scan_ternary_qmark_general W lx
    obtain ⟨d1, d2⟩ := c2 h
    obtain ⟨_, d3, d4, _⟩ := c3 d2
    refine ⟨⟨calls, c1, d2⟩, ⟨lx.pos + w.length + 1, d4, ?_⟩, Or.inr (Or.inl d1), ?_⟩
    · rw [d3]
      by_cases hw : w = []
      · simp [hw, hstart]
      · simp [hw]
    · rw [d1]
      exact h1
  · have hg : (v HTML_COMMENT && !v LOGICAL_OR && !v ESCAPE_SEQUENCE && !v REGEX_PATTERN)
        = true := by
      by_contra hg
      simp [tree_sitter_tsz_external_scanner_scan, h0, h1, hg] at h
    have heq : tree_sitter_tsz_external_scanner_scan W payload lx v
        = scan_html_comment W lx := by
      simp only [tree_sitter_tsz_external_scanner_scan, if_neg h0, if_neg h1, if_pos hg]
    rw [heq] at h ⊢
    obtain ⟨w, n, calls, c1, c2, c3, c4, c5, c6⟩ := scan_html_comment_success W lx h
    refine ⟨⟨calls, c1, c2⟩, ⟨lx.pos + w.length + n, c5, ?_⟩, Or.inr (Or.inr c3), ?_⟩
    · rw [c4]
      by_cases hw : w = []
      · simp [hw, hstart]
        omega
      · simp [hw]
        omega
    · rw [c3]
      simp only [Bool.and_eq_true] at hg
      exact hg.1.1.1

/-- Witness of C11: the input `?x` with `TERNARY_QMARK` alone admissible. -/
theorem scan_success_invariants_witness :
    (∃ calls, (tree_sitter_tsz_external_scanner_scan cLocale 0 (TSLexer.start 0 [63, 120])
        (fun k => k == 1)).2.trace = calls ++ (TSLexer.start 0 [63, 120]).trace ∧
      LexerCall.mark_end ∈ calls) ∧
    (∃ e, (tree_sitter_tsz_external_scanner_scan cLocale 0 (TSLexer.start 0 [63, 120])
        (fun k => k == 1)).2.token_end = some e ∧
      (tree_sitter_tsz_external_scanner_scan cLocale 0 (TSLexer.start 0 [63, 120])
        (fun k => k == 1)).2.token_start < e) ∧
    ((tree_sitter_tsz_external_scanner_scan cLocale 0 (TSLexer.start 0 [63, 120])
        (fun k => k == 1)).2.result_symbol = TEMPLATE_CHARS ∨
      (tree_sitter_tsz_external_scanner_scan cLocale 0 (TSLexer.start 0 [63, 120])
        (fun k => k == 1)).2.result_symbol = TERNARY_QMARK ∨
      (tree_sitter_tsz_external_scanner_scan cLocale 0 (TSLexer.start 0 [63, 120])
        (fun k => k == 1)).2.result_symbol = HTML_COMMENT) ∧
    (fun k => k == 1) (tree_sitter_tsz_external_scanner_scan cLocale 0
      (TSLexer.start 0 [63, 120]) (fun k => k == 1)).2.result_symbol = true :=
  scan_success_invariants cLocale 0 (TSLexer.start 0 [63, 120]) (fun k => k == 1) rfl
    (by
      have heq : tree_sitter_tsz_external_scanner_scan cLocale 0 (TSLexer.start 0 [63, 120])
          (fun k => k == 1) = scan_ternary_qmark cLocale (TSLexer.start 0 [63, 120]) := by
        simp [tree_sitter_tsz_external_scanner_scan]
      rw [heq, scan_ternary_qmark_single cLocale [] [120] (TSLexer.start 0 [63, 120])
        (by simp) rfl (by decide)])

/-! ## Termination -/

/-- C12: every routine ends on every input. In this development each routine is a total
function, defined by recursion on the input that is left: a turn of a loop returns or
consumes a character. What comes out is a bound on the calls made on the lexer, linear
in the length of the input: two for each character and two more for
`scan_template_chars`, one for each character and two more for `scan_ternary_qmark` and
`scan_html_comment`, one for each character for `scan_whitespace_and_comments` in both
modes, and the largest of these for the dispatcher. -/
theorem scanner_terminates (W : WCType) (lx : TSLexer) :
    (scan_template_chars lx).2.trace.length ≤ lx.trace.length + 2 * lx.rest.length + 2 ∧
    (scan_ternary_qmark W lx).2.trace.length ≤ lx.trace.length + lx.rest.length + 2 ∧
    (scan_html_comment W lx).2.trace.length ≤ lx.trace.length + lx.rest.length + 2 ∧
    (∀ sc consume : Bool,
      (scan_whitespace_and_comments W lx sc consume).2.2.trace.length
        ≤ lx.trace.length + lx.rest.length) ∧
    (∀ (payload : Nat) (v : Nat → Bool),
      (tree_sitter_tsz_external_scanner_scan W payload lx v).2.trace.length
        ≤ lx.trace.length + 2 * lx.rest.length + 2) := by
  have h1 : (scan_template_chars lx).2.trace.length
      ≤ lx.trace.length + 2 * lx.rest.length + 2 := by
    obtain ⟨calls, c1, _, c3⟩ := scan_template_chars_trace lx
    rw [c1, List.length_append]
    omega
  have h2 : (scan_ternary_qmark W lx).2.trace.length
      ≤ lx.trace.length + lx.rest.length + 2 := by
    obtain ⟨w, r, calls, _, _, c1, c2, _⟩ := scan_ternary_qmark_general W lx
    rw [c1, List.length_append]
    omega
  have h3 := scan_html_comment_budget W lx
  refine ⟨h1, h2, h3, ?_, ?_⟩
  · intro sc consume
    obtain ⟨pre, post, e1, e2, _⟩ :=
      swc_loop_general W consume (lx.rest.length + 1) sc false lx (Nat.lt_succ_self _)
    rw [scan_whitespace_and_comments, e2, TSLexer.skipN_trace pre post lx e1, e1]
    simp
    omega
  · intro payload v
    unfold tree_sitter_tsz_external_scanner_scan
    split
    · exact h1
    · split
      · omega
      · split
        · omega
        · simp only
          omega

/-! ## The state of the scanner -/

/-- C18: the state of the scanner is empty. `serialize` returns 0 and leaves the buffer
as it was; `deserialize` leaves the state as it was, whatever it is given, so that
`deserialize` after `serialize` gives back the state; and the dispatcher returns the
same value and the same lexer for every payload. -/
theorem scanner_state_empty (W : WCType) (payload : Nat) (buffer : List Nat) :
    (tree_sitter_tsz_external_scanner_serialize payload buffer).1 = 0 ∧
    (tree_sitter_tsz_external_scanner_serialize payload buffer).2 = buffer ∧
    (∀ (p : Nat) (b : List Nat) (n : Nat),
      tree_sitter_tsz_external_scanner_deserialize p b n = p) ∧
    tree_sitter_tsz_external_scanner_deserialize payload
      (tree_sitter_tsz_external_scanner_serialize payload buffer).2
      (tree_sitter_tsz_external_scanner_serialize payload buffer).1 = payload ∧
    (∀ (p : Nat) (lx : TSLexer) (v : Nat → Bool),
      tree_sitter_tsz_external_scanner_scan W p lx v
        = tree_sitter_tsz_external_scanner_scan W payload lx v) :=
  ⟨rfl, rfl, fun _ _ _ => rfl, rfl, fun _ _ _ => rfl⟩

/-! ## The committed token of `scan_ternary_qmark` -/

/-- C19: on every input, on a lexer whose token starts at the cursor,
`scan_ternary_qmark` calls `mark_end` at most once. When it does, the calls before it
are the skips of the white space `w` and one `advance`, over the question mark, and the
token it commits is that question mark alone: what it advances over afterwards, a dot,
stays outside. A call that returns true has called `mark_end`. -/
theorem scan_ternary_qmark_commit (W : WCType) (lx : TSLexer)
    (hstart : lx.token_start = lx.pos) :
    ∃ w r calls, lx.rest = w ++ r ∧ (∀ c ∈ w, W.iswspace c = true) ∧
      (scan_ternary_qmark W lx).2.trace = calls ++ lx.trace ∧
      calls.count LexerCall.mark_end ≤ 1 ∧
      ((scan_ternary_qmark W lx).1 = true → LexerCall.mark_end ∈ calls) ∧
      (LexerCall.mark_end ∈ calls →
        r.head? = some 63 ∧
        (scan_ternary_qmark W lx).2.token_start = lx.pos + w.length ∧
        (scan_ternary_qmark W lx).2.token_end = some (lx.pos + w.length + 1) ∧
        ∃ later, calls = later ++ [LexerCall.mark_end, LexerCall.advance false] ++
          List.replicate w.length (LexerCall.advance true)) := by
  obtain ⟨w, r, calls, h1, h2, h3, _, h5, h6, h7⟩ := scan_ternary_qmark_general W lx
  refine ⟨w, r, calls, h1, h2, h3, h5, fun h => (h6 h).2, ?_⟩
  intro hm
  obtain ⟨e1, e2, e3, e4⟩ := h7 hm
  refine ⟨e1, ?_, e3, e4⟩
  rw [e2]
  by_cases hw : w = []
  · simp [hw, hstart]
  · simp [hw]

/-- Witness of C19: the lexer at the start of the input ` ?.5`. -/
theorem scan_ternary_qmark_commit_witness :
    ∃ w r calls, (TSLexer.start 0 [32, 63, 46, 53]).rest = w ++ r ∧
      (∀ c ∈ w, cLocale.iswspace c = true) ∧
      (scan_ternary_qmark cLocale (TSLexer.start 0 [32, 63, 46, 53])).2.trace
        = calls ++ (TSLexer.start 0 [32, 63, 46, 53]).trace ∧
      calls.count LexerCall.mark_end ≤ 1 ∧
      ((scan_ternary_qmark cLocale (TSLexer.start 0 [32, 63, 46, 53])).1 = true →
        LexerCall.mark_end ∈ calls) ∧
      (LexerCall.mark_end ∈ calls →
        r.head? = some 63 ∧
        (scan_ternary_qmark cLocale (TSLexer.start 0 [32, 63, 46, 53])).2.token_start
          = (TSLexer.start 0 [32, 63, 46, 53]).pos + w.length ∧
        (scan_ternary_qmark cLocale (TSLexer.start 0 [32, 63, 46, 53])).2.token_end
          = some ((TSLexer.start 0 [32, 63, 46, 53]).pos + w.length + 1) ∧
        ∃ later, calls = later ++ [LexerCall.mark_end, LexerCall.advance false] ++
          List.replicate w.length (LexerCall.advance true)) :=
  scan_ternary_qmark_commit cLocale (TSLexer.start 0 [32, 63, 46, 53]) rfl

end Tsz
